import Mathlib

/-!
# db-to-redshift: extract, transform, load

A shallow embedding of `dbtoredshift.go` (package `dbtoredshift`).

* Go strings are modelled as lists of Unicode code points (`GoString`).
* A `rune` is an `Int` (Go's `int32`).
* The collaborators reached through `Config` (`*sql.DB` handles and the
  AWS session) are modelled by the answers they give.
* A Go call returns, panics or stays blocked: `Outcome`.
* The library code the program runs through (`strconv.QuoteRune`,
  `bufio.Writer`, `csv.Writer`) is embedded next to the function that calls
  it; `csv.Reader` is embedded to read the staged object back.
* The goroutines of `transform` are threads of a step function, `step`, run
  under a schedule; the code of the serializer goroutine is a `Prog`.
-/

namespace DbToRedshift

/-! ## Basic data -/

/-- Go `string`, as a sequence of code points. -/
abbrev GoString := List Char

/-- A non-nil Go `error`, identified by its message. -/
structure GoError where
  msg : String
deriving DecidableEq, Repr

/-- How a Go call ends: it returns a value, it panics, or (for a call that
waits for other goroutines) it is still blocked when the schedule considered
is used up. -/
inductive Outcome (α : Type) where
  | ret (a : α)
  | panic (reason : String)
  | blocked
deriving DecidableEq, Repr

/-- Go `sql.NullString`. -/
structure NullString where
  String : GoString
  Valid : Bool
deriving DecidableEq, Repr

/-- One result row as the driver holds it: the nullable text of each column
value, or the error that converting the row into text holders gives. -/
abbrev RowData := Except GoError (List (Option GoString))

/-- Go `*sql.Rows`: an open result cursor.
`columns` is what `rows.Columns()` answers; `rows` are the rows for which
`rows.Next()` answers true, in cursor order; `err` is what `rows.Err()`
answers once `rows.Next()` has answered false (set when iteration stopped
because of a failure rather than at the end of the result set). -/
structure Rows where
  columns : Except GoError (List GoString)
  rows : List RowData
  err : Option GoError

/-- The AWS session as the uploader sees it.
`abort consumed` is the error with which `Upload` gives up after having read
`consumed` from its body (none: it keeps reading); `result bucket key body`
is what `Upload` returns once it has read `body` up to end of file. -/
structure Session where
  abort : GoString → Option GoError
  result : GoString → GoString → GoString → Option GoError

/-- Go struct `S3`. -/
structure S3 where
  Region : GoString
  Bucket : GoString
  Prefix : GoString
  Key : GoString

/-- Go struct `Redshift`. `DB cmd` is the error of `DB.Exec(cmd)` (none: nil). -/
structure Redshift where
  DB : GoString → Option GoError
  Schema : GoString
  Table : GoString
  CredentialsParam : GoString
  CopyParams : GoString

/-- Go struct `Config`. `SourceDB query` is what `SourceDB.Query(query)`
returns: an error (and nil rows) or a cursor. -/
structure Config where
  Session : Session
  SourceDB : GoString → Except GoError Rows
  Redshift : Redshift
  S3 : S3
  CSVDelimiter : Int

/-- Go struct `Client`. -/
structure Client where
  cfg : Config

/-- Go `New`: the delimiter defaults to a comma when it is the zero rune. -/
def New (c : Config) : Client :=
  { cfg := if c.CSVDelimiter = 0 then { c with CSVDelimiter := 44 } else c }

/-! ## extract -/

/-- Go `(*sql.Rows).Close` as deferred in `extract`: on a nil receiver it
dereferences nil and panics. -/
def rowsClose : Option Rows → Outcome Unit
  | none => Outcome.panic "runtime error: invalid memory address or nil pointer dereference"
  | some _ => Outcome.ret ()

/-- Go `rows.Scan(vals...)` with `ncols` fresh `sql.NullString` holders: fails
when the row cannot be converted or has another number of values; a NULL
leaves the holder's `String` empty. -/
def scan (ncols : Nat) (r : RowData) : Except GoError (List NullString) :=
  match r with
  | Except.error e => Except.error e
  | Except.ok vs =>
    if vs.length = ncols then
      Except.ok (vs.map fun v =>
        match v with
        | none => { String := [], Valid := false }
        | some s => { String := s, Valid := true })
    else
      Except.error ⟨"sql: expected " ++ toString vs.length ++
        " destination arguments in Scan, not " ++ toString ncols⟩

/-- The `for rows.Next()` loop of `extract`: `res` is the table built so far.
Returns what the function returns from inside the loop or after it. -/
def extractLoop (ncols : Nat) : List RowData → List (List GoString) →
    List (List GoString) × Option GoError
  | [], res => (res, none)
  | r :: rest, res =>
    match scan ncols r with
    | Except.error e => ([], some e)
    | Except.ok vals => extractLoop ncols rest (res ++ [vals.map fun v => v.String])

/-- Go `(*Client).extract`. The deferred `rows.Close()` is registered before
the error of `Query` is checked, so it runs on nil rows when `Query` failed.
`rows.Err()` is never consulted. -/
def extract (c : Client) (query : GoString) :
    Outcome (List (List GoString) × Option GoError) :=
  match c.cfg.SourceDB query with
  | Except.error e =>
    -- `return nil, err`, then the deferred `rows.Close()` on nil rows
    match rowsClose none with
    | Outcome.ret _ => Outcome.ret ([], some e)
    | Outcome.panic p => Outcome.panic p
    | Outcome.blocked => Outcome.blocked
  | Except.ok rows =>
    let body : List (List GoString) × Option GoError :=
      match rows.columns with
      | Except.error e => ([], some e)
      | Except.ok cols => extractLoop cols.length rows.rows []
    match rowsClose (some rows) with
    | Outcome.ret _ => Outcome.ret body
    | Outcome.panic p => Outcome.panic p
    | Outcome.blocked => Outcome.blocked

/-! ## load -/

/-- Go `strconv` table `lowerhex`. -/
def lowerhex (n : Nat) : Char :=
  "0123456789abcdef".toList.getD n '0'

/-- Go `utf8.ValidRune`. -/
def validRune (r : Int) : Bool :=
  (decide (0 ≤ r) && decide (r < 0xD800)) || (decide (0xDFFF < r) && decide (r ≤ 0x10FFFF))

/-- Go `strconv.IsPrint`. Runes up to U+00FF are decided inline as in the
library; `wide` stands for the library's tables for the runes above. -/
def IsPrint (wide : Int → Bool) (r : Int) : Bool :=
  if r ≤ 0xFF then
    if 0x20 ≤ r ∧ r ≤ 0x7E then true
    else if 0xA1 ≤ r ∧ r ≤ 0xFF then decide (r ≠ 0xAD)
    else false
  else wide r

/-- The code point of a valid rune. -/
def runeChar (r : Int) : Char := Char.ofNat r.toNat

/-- Hexadecimal digits of `r`, `n` of them, most significant first. -/
def hexDigits (r : Int) : Nat → List Char
  | 0 => []
  | n + 1 => lowerhex ((r.toNat / 16 ^ n) % 16) :: hexDigits r n

/-- Go `strconv.appendEscapedRune` with quote `'`, `ASCIIonly` and
`graphicOnly` false. -/
def appendEscapedRune (wide : Int → Bool) (r : Int) : GoString :=
  if r = 39 ∨ r = 92 then ['\\', runeChar r]
  else if IsPrint wide r then [runeChar r]
  else if r = 7 then ['\\', 'a']
  else if r = 8 then ['\\', 'b']
  else if r = 12 then ['\\', 'f']
  else if r = 10 then ['\\', 'n']
  else if r = 13 then ['\\', 'r']
  else if r = 9 then ['\\', 't']
  else if r = 11 then ['\\', 'v']
  else if r < 32 ∨ r = 0x7f then ['\\', 'x'] ++ hexDigits r 2
  else if r < 0x10000 then ['\\', 'u'] ++ hexDigits r 4
  else ['\\', 'U'] ++ hexDigits r 8

/-- Go `strconv.QuoteRune`: a single-quoted Go character literal; an invalid
rune is replaced by U+FFFD first. -/
def QuoteRune (wide : Int → Bool) (r : Int) : GoString :=
  ['\''] ++ appendEscapedRune wide (if validRune r then r else 0xFFFD) ++ ['\'']

/-- The `fmt.Sprintf` of `load`: the COPY statement for object key `key`. -/
def loadStatement (wide : Int → Bool) (c : Client) (key : GoString) : GoString :=
  "\n\t\tCOPY ".toList ++ c.cfg.Redshift.Schema ++ ".".toList ++ c.cfg.Redshift.Table ++
  "\n\t\tFROM 's3://".toList ++ c.cfg.S3.Bucket ++ "/".toList ++ key ++
  "' CREDENTIALS '".toList ++ c.cfg.Redshift.CredentialsParam ++
  "'\n\t\tCSV DELIMITER ".toList ++ QuoteRune wide c.cfg.CSVDelimiter ++ " ".toList ++
  c.cfg.Redshift.CopyParams ++
  "\n\t\tREGION '".toList ++ c.cfg.S3.Region ++ "'\n\t\t".toList

/-- What one call of `load` does: the statements handed to the warehouse and
the error returned. -/
structure LoadResult where
  executed : List GoString
  err : Option GoError

/-- Go `(*Client).load`: one `DB.Exec` of the COPY statement, whose error is
returned. -/
def load (wide : Int → Bool) (c : Client) (key : GoString) : LoadResult :=
  let cmd := loadStatement wide c key
  { executed := [cmd], err := c.cfg.Redshift.DB cmd }

/-! ## The serializer goroutine of transform

The goroutine talks to its surroundings through the write end `w` of the
pipe and through the channel `errc`. Its code is embedded once, as a `Prog`,
and then run either alone against a pipe (`Prog.run`) or as one thread of
`transform` (`step`). -/

/-- What a goroutine still has to do, as far as the pipe writer and `errc`
are concerned. -/
inductive Prog (α : Type) where
  /-- the code has run to its end with result `a` -/
  | done (a : α)
  /-- `w.Write(p)`, then `k` applied to the error it returns -/
  | pipeWrite (p : GoString) (k : Option GoError → Prog α)
  /-- `w.Close()` -/
  | pipeClose (k : Prog α)
  /-- `errc <- v` -/
  | chanSend (v : Option GoError) (k : Prog α)
  /-- `close(errc)` -/
  | chanClose (k : Prog α)

/-- Sequencing of goroutine code. -/
def Prog.bind {α β : Type} : Prog α → (α → Prog β) → Prog β
  | Prog.done a, f => f a
  | Prog.pipeWrite p k, f => Prog.pipeWrite p fun r => (k r).bind f
  | Prog.pipeClose k, f => Prog.pipeClose (k.bind f)
  | Prog.chanSend v k, f => Prog.chanSend v (k.bind f)
  | Prog.chanClose k, f => Prog.chanClose (k.bind f)

/-- Go `bufio.defaultBufSize`, the buffer `csv.NewWriter` allocates. The
buffer of the model is filled by code points where Go fills it by UTF-8
bytes: for ASCII text the two agree; for other text the model flushes later
than the code. The bytes written are the same for every buffer size
(`stagedBytes_eq`); only the points at which the buffer is flushed differ,
and nothing below is stated about them for text outside ASCII. -/
def defaultBufSize : Nat := 4096

/-- Go `bufio.Writer` over the pipe writer: the buffered text and the sticky
error. -/
structure BufioWriter where
  buf : GoString
  err : Option GoError

/-- Go `(*bufio.Writer).Available`. -/
def BufioWriter.Available (b : BufioWriter) : Nat := defaultBufSize - b.buf.length

/-- Go `(*bufio.Writer).Flush`; the error it returns is the `err` of the
writer returned here. -/
def BufioWriter.Flush (b : BufioWriter) : Prog BufioWriter :=
  match b.err with
  | some _ => Prog.done b
  | none =>
    if b.buf.length = 0 then Prog.done b
    else Prog.pipeWrite b.buf fun r =>
      match r with
      | some e => Prog.done { b with err := some e }
      | none => Prog.done { buf := [], err := none }

/-- Go `(*bufio.Writer).WriteByte`; the error it returns is the `err` of the
writer returned here. -/
def BufioWriter.WriteByte (b : BufioWriter) (c : Char) : Prog BufioWriter :=
  match b.err with
  | some _ => Prog.done b
  | none =>
    if b.Available ≤ 0 then
      b.Flush.bind fun b1 =>
        match b1.err with
        | some _ => Prog.done b1
        | none => Prog.done { b1 with buf := b1.buf ++ [c] }
    else Prog.done { b with buf := b.buf ++ [c] }

/-- The `for len(s) > b.Available() && b.err == nil` loop of
`(*bufio.Writer).WriteString`, at most `fuel` rounds: returns the writer and
the part of `s` not yet copied. -/
def BufioWriter.writeStringLoop : Nat → BufioWriter → GoString → Prog (BufioWriter × GoString)
  | 0, b, s => Prog.done (b, s)
  | fuel + 1, b, s =>
    if s.length > b.Available ∧ b.err = none then
      (BufioWriter.Flush { b with buf := b.buf ++ s.take b.Available }).bind fun b1 =>
        BufioWriter.writeStringLoop fuel b1 (s.drop b.Available)
    else Prog.done (b, s)

/-- Go `(*bufio.Writer).WriteString`; the error it returns is the `err` of
the writer returned here. The loop runs at most once per code point of `s`
plus once for a buffer found full. -/
def BufioWriter.WriteString (b : BufioWriter) (s : GoString) : Prog BufioWriter :=
  (BufioWriter.writeStringLoop (s.length + 1) b s).bind fun r =>
    match r.1.err with
    | some _ => Prog.done r.1
    | none => Prog.done { r.1 with buf := r.1.buf ++ r.2 }

/-- Go `unicode.IsSpace`. -/
def IsSpace (c : Char) : Bool :=
  let n := c.toNat
  if n ≤ 0xFF then
    n = 9 || n = 10 || n = 11 || n = 12 || n = 13 || n = 32 || n = 0x85 || n = 0xA0
  else
    n = 0x1680 || (0x2000 ≤ n && n ≤ 0x200a) || n = 0x2028 || n = 0x2029 ||
    n = 0x202f || n = 0x205f || n = 0x3000

/-- Go `(*csv.Writer).fieldNeedsQuotes` for delimiter `comma`. -/
def fieldNeedsQuotes (comma : Char) (field : GoString) : Bool :=
  match field with
  | [] => false
  | r1 :: _ =>
    if field = ['\\', '.'] then true
    else if field.any fun c => c == comma || c == '"' || c == '\r' || c == '\n' then true
    else IsSpace r1

/-- Go `csv.Writer` (with `UseCRLF` false, as `csv.NewWriter` leaves it): the
delimiter and the buffered writer `w`. -/
structure CsvWriter where
  Comma : Char
  w : BufioWriter

/-- The body of a quoted field in `(*csv.Writer).Write`: a quote is written
doubled, every other code point as it is; stops at the first write error.
(Later versions of the library hand the text between two quotes or line ends
to the buffered writer in one piece; the bytes and the points at which the
buffer is flushed are the same.) -/
def writeQuotedBody (b : BufioWriter) : GoString → Prog BufioWriter
  | [] => Prog.done b
  | c :: rest =>
    (if c = '"' then b.WriteString ['"', '"'] else b.WriteByte c).bind fun b1 =>
      match b1.err with
      | some _ => Prog.done b1
      | none => writeQuotedBody b1 rest

/-- One field of `(*csv.Writer).Write`: raw, or between quotes. -/
def writeField (comma : Char) (b : BufioWriter) (field : GoString) : Prog BufioWriter :=
  if !fieldNeedsQuotes comma field then b.WriteString field
  else
    (b.WriteByte '"').bind fun b1 =>
      match b1.err with
      | some _ => Prog.done b1
      | none =>
        (writeQuotedBody b1 field).bind fun b2 =>
          match b2.err with
          | some _ => Prog.done b2
          | none => b2.WriteByte '"'

/-- The `for n, field := range record` loop of `(*csv.Writer).Write`; `n` is
the index of the first field of `fields`. -/
def writeFields (comma : Char) (b : BufioWriter) (n : Nat) : List GoString → Prog BufioWriter
  | [] => Prog.done b
  | field :: rest =>
    (if n > 0 then b.WriteByte comma else Prog.done b).bind fun b1 =>
      match b1.err with
      | some _ => Prog.done b1
      | none =>
        (writeField comma b1 field).bind fun b2 =>
          match b2.err with
          | some _ => Prog.done b2
          | none => writeFields comma b2 (n + 1) rest

/-- Go `(*csv.Writer).Write`: the record's fields separated by the delimiter
and ended by a newline, written through the buffered writer; returns the
writer and the error of the first write that failed. -/
def CsvWriter.Write (cw : CsvWriter) (record : List GoString) :
    Prog (CsvWriter × Option GoError) :=
  (writeFields cw.Comma cw.w 0 record).bind fun b1 =>
    match b1.err with
    | some e => Prog.done ({ cw with w := b1 }, some e)
    | none =>
      (b1.WriteByte '\n').bind fun b2 =>
        Prog.done ({ cw with w := b2 }, b2.err)

/-- Go `(*csv.Writer).Flush`: flushes the buffered writer and returns
nothing. -/
def CsvWriter.Flush (cw : CsvWriter) : Prog CsvWriter :=
  cw.w.Flush.bind fun b => Prog.done { cw with w := b }

/-- The `for _, row := range records` loop of the serializer goroutine and
what follows it. -/
def serializerLoop (csvWriter : CsvWriter) : List (List GoString) → Prog Unit
  | [] =>
    -- csvWriter.Flush(); w.Close()
    csvWriter.Flush.bind fun _ => Prog.pipeClose (Prog.done ())
  | row :: rest =>
    (csvWriter.Write row).bind fun r =>
      match r.2 with
      | some err =>
        -- errc <- err; close(errc); return
        Prog.chanSend (some err) (Prog.chanClose (Prog.done ()))
      | none => serializerLoop r.1 rest

/-- The first goroutine of `transform`: `csv.NewWriter(w)` with the delimiter
set to a tab, whatever the configuration says. -/
def serializer (records : List (List GoString)) : Prog Unit :=
  serializerLoop { Comma := '\t', w := { buf := [], err := none } } records

/-! ### The serializer run alone -/

/-- The surroundings of a goroutine run alone: `failure i` is the error of
the `i`-th write to the pipe (none: the reader takes the data); the rest
records what the goroutine did. -/
structure Surround where
  failure : Nat → Option GoError
  writes : Nat
  written : GoString
  wClosed : Bool
  sent : List (Option GoError)
  errcClosed : Bool

/-- Surroundings at the start: nothing written, nothing sent, both ends open. -/
def Surround.start (failure : Nat → Option GoError) : Surround :=
  { failure := failure, writes := 0, written := [], wClosed := false, sent := [],
    errcClosed := false }

/-- Runs goroutine code to its end against the surroundings; every value sent
on `errc` is taken by a waiting receiver. -/
def Prog.run {α : Type} : Prog α → Surround → α × Surround
  | Prog.done a, s => (a, s)
  | Prog.pipeWrite p k, s =>
    match s.failure s.writes with
    | some e => (k (some e)).run { s with writes := s.writes + 1 }
    | none => (k none).run { s with writes := s.writes + 1, written := s.written ++ p }
  | Prog.pipeClose k, s => k.run { s with wClosed := true }
  | Prog.chanSend v k, s => k.run { s with sent := s.sent ++ [v] }
  | Prog.chanClose k, s => k.run { s with errcClosed := true }

/-- The bytes of the staged object: what the serializer goroutine writes to a
pipe whose reader takes everything. -/
def stagedBytes (records : List (List GoString)) : GoString :=
  ((serializer records).run (Surround.start fun _ => none)).2.written

/-! ## transform: two goroutines, a pipe and a channel -/

/-- The goroutines of one call of `transform`. -/
inductive Tid where
  | main
  | serializer
  | uploader
deriving DecidableEq, Repr

/-- Where the calling goroutine of `transform` is. -/
inductive MainPC where
  /-- at `err := <-errc` -/
  | recv
  /-- `transform` has returned `err` -/
  | returned (err : Option GoError)
deriving DecidableEq, Repr

/-- Where the second goroutine of `transform` is. -/
inductive UploaderPC where
  /-- inside `uploader.Upload`, having read `consumed` from the pipe -/
  | upload (consumed : GoString)
  /-- inside `uploader.Upload`, blocked in a read of the pipe -/
  | reading (consumed : GoString)
  /-- at `errc <- err`, `Upload` having returned the error `err` -/
  | sendErr (err : GoError)
  /-- at `errc <- nil` -/
  | sendNil
  /-- the goroutine has ended -/
  | exit
deriving DecidableEq, Repr

/-- The state of one call of `transform`: the three goroutines, whether the
write end of the pipe and the channel `errc` are closed, and the panic that
ended the process, if any. The read end of the pipe is closed by nobody. -/
structure TransformState where
  main : MainPC
  serializer : Prog Unit
  uploader : UploaderPC
  wClosed : Bool
  errcClosed : Bool
  panicked : Option String

/-- Go `errc <- v` by a goroutine other than main, on the unbuffered `errc`:
panics on a closed channel, completes when main is receiving and is blocked
otherwise. `next` is the state of the sender after the send. -/
def chanSend (s : TransformState) (v : Option GoError) (next : TransformState) :
    Option TransformState :=
  if s.errcClosed then some { s with panicked := some "send on closed channel" }
  else
    match s.main with
    | MainPC.recv => some { next with main := MainPC.returned v }
    | MainPC.returned _ => none

/-- One step of the serializer goroutine; none when it is blocked or has
ended. A write to the pipe is handed over to a reader blocked in its read. -/
def stepSerializer (s : TransformState) : Option TransformState :=
  match s.serializer with
  | Prog.done _ => none
  | Prog.pipeWrite p k =>
    if s.wClosed then
      some { s with serializer := k (some ⟨"io: read/write on closed pipe"⟩) }
    else
      match s.uploader with
      | UploaderPC.reading consumed =>
        some { s with serializer := k none, uploader := UploaderPC.upload (consumed ++ p) }
      | _ => none
  | Prog.pipeClose k => some { s with serializer := k, wClosed := true }
  | Prog.chanSend v k => chanSend s v { s with serializer := k }
  | Prog.chanClose k =>
    if s.errcClosed then some { s with panicked := some "close of closed channel" }
    else some { s with serializer := k, errcClosed := true }

/-- One step of the uploader goroutine; none when it is blocked or has
ended. -/
def stepUploader (c : Client) (key : GoString) (s : TransformState) : Option TransformState :=
  match s.uploader with
  | UploaderPC.upload consumed =>
    match c.cfg.Session.abort consumed with
    | some err => some { s with uploader := UploaderPC.sendErr err }
    | none => some { s with uploader := UploaderPC.reading consumed }
  | UploaderPC.reading consumed =>
    if s.wClosed then
      -- end of file: `Upload` returns
      match c.cfg.Session.result c.cfg.S3.Bucket key consumed with
      | some err => some { s with uploader := UploaderPC.sendErr err }
      | none => some { s with uploader := UploaderPC.sendNil }
    else none
  | UploaderPC.sendErr err => chanSend s (some err) { s with uploader := UploaderPC.sendNil }
  | UploaderPC.sendNil => chanSend s none { s with uploader := UploaderPC.exit }
  | UploaderPC.exit => none

/-- One step of the calling goroutine on its own: a receive from the closed
channel yields nil. A receive of a value sent is part of the sender's step. -/
def stepMain (s : TransformState) : Option TransformState :=
  match s.main with
  | MainPC.recv => if s.errcClosed then some { s with main := MainPC.returned none } else none
  | MainPC.returned _ => none

/-- One step of goroutine `t`; none when `t` cannot move or the process has
panicked. -/
def step (c : Client) (key : GoString) (t : Tid) (s : TransformState) : Option TransformState :=
  match s.panicked with
  | some _ => none
  | none =>
    match t with
    | Tid.main => stepMain s
    | Tid.serializer => stepSerializer s
    | Tid.uploader => stepUploader c key s

/-- Runs the goroutines in the order the schedule names them; a goroutine
that cannot move when named is passed over. -/
def runSchedule (c : Client) (key : GoString) : List Tid → TransformState → TransformState
  | [], s => s
  | t :: ts, s =>
    match step c key t s with
    | some s1 => runSchedule c key ts s1
    | none => runSchedule c key ts s

/-- The state in which `transform` starts its goroutines: `io.Pipe()` and
`make(chan error)` fresh, main about to receive. -/
def transformStart (records : List (List GoString)) : TransformState :=
  { main := MainPC.recv, serializer := serializer records, uploader := UploaderPC.upload [],
    wClosed := false, errcClosed := false, panicked := none }

/-- What the caller of `transform` sees in state `s`. -/
def transformOutcome (s : TransformState) : Outcome (Option GoError) :=
  match s.main with
  | MainPC.returned err => Outcome.ret err
  | MainPC.recv =>
    match s.panicked with
    | some p => Outcome.panic p
    | none => Outcome.blocked

/-- Go `(*Client).transform` under the schedule `sched` of its goroutines. -/
def transform (sched : List Tid) (c : Client) (records : List (List GoString))
    (key : GoString) : Outcome (Option GoError) :=
  transformOutcome (runSchedule c key sched (transformStart records))

/-! ## Exec -/

/-- What lies outside the program text: the order in which the goroutines of
`transform` run, and the printable-rune tables of `strconv` above U+00FF. -/
structure Runtime where
  schedule : List Tid
  wide : Int → Bool

/-- A stage invoked by `Exec`, with its arguments. -/
inductive Call where
  | extract (query : GoString)
  | transform (records : List (List GoString)) (key : GoString)
  | load (key : GoString)
deriving DecidableEq, Repr

/-- What one call of `Exec` does: how it ends, the stages it invoked in order,
and the statements it had the warehouse execute. -/
structure ExecResult where
  outcome : Outcome (Option GoError)
  calls : List Call
  executed : List GoString
deriving DecidableEq, Repr

/-- The object key `Exec` computes: the prefix and a slash before the key when
the prefix is not empty. -/
def s3Key (c : Client) : GoString :=
  (if c.cfg.S3.Prefix ≠ [] then c.cfg.S3.Prefix ++ ['/'] else []) ++ c.cfg.S3.Key

/-- Go `(*Client).Exec`. The error of `load` is assigned and not returned. -/
def Exec (rt : Runtime) (c : Client) (query : GoString) : ExecResult :=
  let key := s3Key c
  match extract c query with
  | Outcome.panic p => { outcome := Outcome.panic p, calls := [Call.extract query], executed := [] }
  | Outcome.blocked => { outcome := Outcome.blocked, calls := [Call.extract query], executed := [] }
  | Outcome.ret (_, some err) =>
    { outcome := Outcome.ret (some err), calls := [Call.extract query], executed := [] }
  | Outcome.ret (res, none) =>
    match transform rt.schedule c res key with
    | Outcome.panic p =>
      { outcome := Outcome.panic p, calls := [Call.extract query, Call.transform res key],
        executed := [] }
    | Outcome.blocked =>
      { outcome := Outcome.blocked, calls := [Call.extract query, Call.transform res key],
        executed := [] }
    | Outcome.ret (some err) =>
      { outcome := Outcome.ret (some err),
        calls := [Call.extract query, Call.transform res key], executed := [] }
    | Outcome.ret none =>
      -- err = c.load(s3Key); return nil
      let r := load rt.wide c key
      { outcome := Outcome.ret none,
        calls := [Call.extract query, Call.transform res key, Call.load key],
        executed := r.executed }

/-- A schedule that lets the serializer and the uploader take turns, `n`
times each. -/
def alternate : Nat → List Tid
  | 0 => []
  | n + 1 => Tid.serializer :: Tid.uploader :: alternate n

/-! ## Reading the staged object back

The reader of the same dialect is Go's `csv.Reader` with the delimiter of the
writer and its other settings as `csv.NewReader` leaves them
(`FieldsPerRecord` 0, no comment character, `LazyQuotes` and
`TrimLeadingSpace` false). Loops take a bound on their rounds; a result of
`none` says that the bound was too small. -/

/-- The errors of Go `csv.Reader`. -/
inductive ParseError where
  | ErrBareQuote
  | ErrQuote
  | ErrFieldCount
deriving DecidableEq, Repr

/-- Go `lengthNL`: 1 when the line ends in a newline, else 0. -/
def lengthNL (b : GoString) : Nat :=
  if b.getLast? = some '\n' then 1 else 0

/-- Go `(*csv.Reader).readLine`: the next line with its newline (none at end
of input) and the input after it. A final line without newline loses a
trailing carriage return; a line ending in carriage return and newline has
the two replaced by a newline. -/
def readLine (input : GoString) : Option (GoString × GoString) :=
  match input.span fun c => c != '\n' with
  | ([], []) => none
  | (pre, []) => some (if pre.getLast? = some '\r' then pre.dropLast else pre, [])
  | (pre, _ :: rest) =>
    some (if pre.getLast? = some '\r' then pre.dropLast ++ ['\n'] else pre ++ ['\n'], rest)

/-- How the reading of a quoted field ends. -/
inductive Quoted where
  /-- at a quote followed by the delimiter: the field, the line after the
  delimiter and the unread input -/
  | more (field line rest : GoString)
  /-- at a quote followed by the end of the line: the field and the unread
  input -/
  | last (field rest : GoString)
  /-- with an error -/
  | fail (e : ParseError)
deriving DecidableEq, Repr

/-- The loop of `readRecord` over a quoted field, the opening quote taken:
`line` is what is left of the current line, `rest` the unread input, `cur`
the text of the field so far. -/
def parseQuoted (comma : Char) : Nat → GoString → GoString → GoString → Option Quoted
  | 0, _, _, _ => none
  | fuel + 1, line, rest, cur =>
    match line.span fun c => c != '"' with
    | (pre, _ :: after) =>
      -- hit next quote
      match after with
      | [] => some (Quoted.last (cur ++ pre) rest)
      | c :: after1 =>
        if c = '"' then parseQuoted comma fuel after1 rest (cur ++ pre ++ ['"'])
        else if c = comma then some (Quoted.more (cur ++ pre) after1 rest)
        else if lengthNL after = after.length then some (Quoted.last (cur ++ pre) rest)
        else some (Quoted.fail ParseError.ErrQuote)
    | (_, []) =>
      if line.length > 0 then
        -- hit end of line: copy all data so far and read the next line
        match readLine rest with
        | some (line1, rest1) => parseQuoted comma fuel line1 rest1 (cur ++ line)
        | none => some (Quoted.fail ParseError.ErrQuote)
      else
        -- abrupt end of file
        some (Quoted.fail ParseError.ErrQuote)

/-- What `readRecord` returns. -/
inductive Record where
  /-- `io.EOF` -/
  | eof
  /-- a parse error -/
  | fail (e : ParseError)
  /-- a record, and the unread input -/
  | record (fields : List GoString) (rest : GoString)
deriving DecidableEq, Repr

/-- The `parseField` loop of `readRecord`: `line` is what is left of the
current line, `rest` the unread input, `acc` the fields read so far. Returns
the record and the unread input, or the error. -/
def parseFields (comma : Char) : Nat → GoString → GoString → List GoString → Option Record
  | 0, _, _, _ => none
  | fuel + 1, line, rest, acc =>
    if line.head? ≠ some '"' then
      -- non-quoted string field
      match line.span fun c => c != comma with
      | (field, _ :: after) =>
        if '"' ∈ field then some (Record.fail ParseError.ErrBareQuote)
        else parseFields comma fuel after rest (acc ++ [field])
      | (_, []) =>
        let field := line.take (line.length - lengthNL line)
        if '"' ∈ field then some (Record.fail ParseError.ErrBareQuote)
        else some (Record.record (acc ++ [field]) rest)
    else
      -- quoted string field
      match parseQuoted comma (line.length + rest.length + 1) (line.drop 1) rest [] with
      | none => none
      | some (Quoted.more field line1 rest1) => parseFields comma fuel line1 rest1 (acc ++ [field])
      | some (Quoted.last field rest1) => some (Record.record (acc ++ [field]) rest1)
      | some (Quoted.fail e) => some (Record.fail e)

/-- Go `(*csv.Reader).readRecord` up to the check of the field count: skips
empty lines, then parses the fields of one record. -/
def readRecord (comma : Char) : Nat → GoString → Option Record
  | 0, _ => none
  | fuel + 1, input =>
    match readLine input with
    | none => some Record.eof
    | some (line, rest) =>
      if line.length = lengthNL line then readRecord comma fuel rest
      else parseFields comma (line.length + rest.length + 1) line rest []

/-- What `ReadAll` returns: the records, or the error. -/
inductive Records where
  | ok (records : List (List GoString))
  | fail (e : ParseError)
deriving DecidableEq, Repr

/-- The loop of Go `(*csv.Reader).ReadAll`, with the check of the field count
of `readRecord`: `fieldsPerRecord` is the reader's `FieldsPerRecord`,
`records` the records read so far. -/
def readAllLoop (comma : Char) : Nat → GoString → Nat → List (List GoString) → Option Records
  | 0, _, _, _ => none
  | fuel + 1, input, fieldsPerRecord, records =>
    match readRecord comma (input.length + 1) input with
    | none => none
    | some Record.eof => some (Records.ok records)
    | some (Record.fail e) => some (Records.fail e)
    | some (Record.record fields rest) =>
      if fieldsPerRecord > 0 then
        if fields.length ≠ fieldsPerRecord then some (Records.fail ParseError.ErrFieldCount)
        else readAllLoop comma fuel rest fieldsPerRecord (records ++ [fields])
      else readAllLoop comma fuel rest fields.length (records ++ [fields])

/-- Go `(*csv.Reader).ReadAll` on a fresh reader with delimiter `comma`. -/
def ReadAll (comma : Char) (input : GoString) : Option Records :=
  readAllLoop comma (input.length + 1) input 0 []

/-! ## The text of the staged object in closed form -/

/-- The body of a quoted field: every quote doubled. -/
def escapeQuotes : GoString → GoString
  | [] => []
  | c :: rest => (if c = '"' then ['"', '"'] else [c]) ++ escapeQuotes rest

/-- The text of one field: between quotes when `fieldNeedsQuotes`. -/
def encodeField (comma : Char) (field : GoString) : GoString :=
  if fieldNeedsQuotes comma field then ['"'] ++ escapeQuotes field ++ ['"'] else field

/-- The text of the fields of a record from the `n`-th on: the delimiter
before every field but the first of the record. -/
def encodeFields (comma : Char) (n : Nat) : List GoString → GoString
  | [] => []
  | field :: rest =>
    (if n > 0 then [comma] else []) ++ encodeField comma field ++ encodeFields comma (n + 1) rest

/-- The text of a record: its fields and a newline. -/
def encodeRecord (comma : Char) (record : List GoString) : GoString :=
  encodeFields comma 0 record ++ ['\n']

/-- The text of a table: its records one after the other. -/
def encodeRecords (comma : Char) : List (List GoString) → GoString
  | [] => []
  | record :: rest => encodeRecord comma record ++ encodeRecords comma rest

/-- Goroutine code that does nothing but write to the pipe. -/
inductive PipeOnly {α : Type} : Prog α → Prop where
  | done (a : α) : PipeOnly (Prog.done a)
  | pipeWrite (p : GoString) (k : Option GoError → Prog α) :
      (∀ r, PipeOnly (k r)) → PipeOnly (Prog.pipeWrite p k)

/-- Surroundings whose pipe reader takes every write. -/
def Accepting (s : Surround) : Prop := ∀ i, s.failure i = none

/-- Buffered-writer code `m`, started on the writer `b` without error, adds
the text `t` to what is written or buffered, and leaves no error, whenever
the reader takes every write. -/
def Emits (b : BufioWriter) (t : GoString) (m : Prog BufioWriter) : Prop :=
  ∀ s : Surround, Accepting s →
    (m.run s).1.err = none ∧
    (m.run s).2.written ++ (m.run s).1.buf = s.written ++ b.buf ++ t ∧
    Accepting (m.run s).2 ∧
    (m.run s).2.wClosed = s.wClosed

/-! ## Notions used to state and prove the round trip -/

/-- Whether the text holds a carriage return directly followed by a newline. -/
def hasCRLF : GoString → Bool
  | [] => false
  | c :: rest => (c == '\r' && rest.head? == some '\n') || hasCRLF rest

/-- The text up to and with its first newline. -/
def firstLine : GoString → GoString
  | [] => []
  | c :: rest => if c = '\n' then ['\n'] else c :: firstLine rest

/-- The text after its first newline. -/
def afterLine : GoString → GoString
  | [] => []
  | c :: rest => if c = '\n' then rest else afterLine rest

/-- A text without carriage return before newline that does not end in a
carriage return. -/
def CRSafe (t : GoString) : Prop := hasCRLF t = false ∧ t.getLast? ≠ some '\r'

/-- The bytes the serializer would write if it set the delimiter of its
`csv.Writer` to `comma`. -/
def stagedBytesWith (comma : Char) (records : List (List GoString)) : GoString :=
  ((serializerLoop { Comma := comma, w := { buf := [], err := none } } records).run
    (Surround.start fun _ => none)).2.written

/-- Whether goroutine code whose writes to the pipe all succeed never sends
on `errc`, never closes it, and ends right after `w.Close()`. -/
def Prog.quiet {α : Type} : Prog α → Bool
  | Prog.done _ => true
  | Prog.pipeWrite _ k => (k none).quiet
  | Prog.pipeClose k =>
    match k with
    | Prog.done _ => true
    | _ => false
  | Prog.chanSend _ _ => false
  | Prog.chanClose _ => false

/-- A state of `transform` in which the serializer goroutine has met no write
error and is on no path to one: its code is quiet, it has ended once the
writer end is closed, `errc` is open and nothing has panicked. -/
def SerializerSound (s : TransformState) : Prop :=
  s.serializer.quiet = true ∧ (s.wClosed = true → ∃ a, s.serializer = Prog.done a) ∧
  s.errcClosed = false ∧ s.panicked = none

/-! ## The scenario of `TestExec` and variations of it -/

/-- A session whose uploads succeed. -/
def okSession : Session :=
  { abort := fun _ => none, result := fun _ _ _ => none }

/-- A session whose uploads fail before anything is read. -/
def failingSession (e : GoError) : Session :=
  { abort := fun _ => some e, result := fun _ _ _ => none }

/-- A session whose uploads read the body to its end and are then rejected
with `e`. -/
def rejectingSession (e : GoError) : Session :=
  { abort := fun _ => none, result := fun _ _ _ => some e }

/-- The result cursor of `TestExec`: three columns, rows 1 2 3 and 4 5 6. -/
def testRows : Rows :=
  { columns := Except.ok ["col1".toList, "col2".toList, "col3".toList]
    rows := [Except.ok [some "1".toList, some "2".toList, some "3".toList],
             Except.ok [some "4".toList, some "5".toList, some "6".toList]]
    err := none }

/-- The configuration of `TestExec`, over a session, a source database and a
warehouse. -/
def testConfig (session : Session) (source : GoString → Except GoError Rows)
    (warehouse : GoString → Option GoError) : Config :=
  { Session := session
    SourceDB := source
    Redshift :=
      { DB := warehouse, Schema := "test_schema".toList, Table := "test_table".toList,
        CredentialsParam := [], CopyParams := [] }
    S3 :=
      { Region := [], Bucket := "test_bucket".toList, Prefix := "test_prefix".toList,
        Key := "test_key".toList }
    CSVDelimiter := 0 }

/-- A runtime whose schedule lets the goroutines of `transform` take turns. -/
def fairRuntime : Runtime :=
  { schedule := alternate 8, wide := fun _ => false }

/-! ## Theorems -/

/-! ### extract -/

theorem extractLoop_ok (ncols : Nat) (data : List (List (Option GoString)))
    (acc : List (List GoString)) (h : ∀ r ∈ data, r.length = ncols) :
    extractLoop ncols (data.map Except.ok) acc =
      (acc ++ data.map (fun r => r.map fun v => v.getD []), none) := by
  induction data generalizing acc with
  | nil => simp [extractLoop]
  | cons r rest ih =>
    have hr : r.length = ncols := h r (List.mem_cons_self _ _)
    have hrest : ∀ x ∈ rest, x.length = ncols := fun x hx => h x (List.mem_cons_of_mem _ hx)
    have hmap : List.map (fun v : NullString => v.String)
        (List.map (fun v : Option GoString =>
          match v with
          | none => ({ String := [], Valid := false } : NullString)
          | some s => { String := s, Valid := true }) r) =
        List.map (fun v : Option GoString => v.getD []) r := by
      rw [List.map_map]
      apply List.map_congr_left
      intro v _
      cases v <;> rfl
    simp only [List.map_cons, extractLoop, scan, hr, if_true]
    rw [ih _ hrest, hmap]
    simp

/-- C9: when the query succeeds, column metadata are read (C columns) and the
cursor yields N rows of C values that all scan, `extract` returns exactly the
N rows in cursor order with a nil error, every row has C fields, and each
field is the text of the value, or the empty string for NULL (`getD []`), so
that NULL and the empty string give the same field. -/
theorem extract_returns_rows (c : Client) (query : GoString) (rows : Rows)
    (cols : List GoString) (data : List (List (Option GoString)))
    (hq : c.cfg.SourceDB query = Except.ok rows)
    (hc : rows.columns = Except.ok cols)
    (hr : rows.rows = data.map Except.ok)
    (hlen : ∀ r ∈ data, r.length = cols.length) :
    extract c query = Outcome.ret (data.map (fun r => r.map fun v => v.getD []), none) ∧
    (data.map (fun r => r.map fun v => v.getD [])).length = data.length ∧
    (∀ row ∈ data.map (fun r => r.map fun v => v.getD ([] : GoString)),
      row.length = cols.length) := by
  refine ⟨?_, by simp, ?_⟩
  · simp only [extract, hq, hc, hr, rowsClose]
    rw [extractLoop_ok _ _ _ hlen]
    simp
  · intro row hrow
    simp only [List.mem_map] at hrow
    obtain ⟨r, hr1, hr2⟩ := hrow
    rw [← hr2, List.length_map]
    exact hlen r hr1

/-- C9 (witness): the cursor of `TestExec` with a NULL and an empty string in
its second row. -/
theorem extract_returns_rows_witness :
    extract (New (testConfig okSession
        (fun _ => Except.ok
          { columns := Except.ok ["col1".toList, "col2".toList, "col3".toList]
            rows := List.map Except.ok
              [[some "1".toList, some "2".toList, some "3".toList], [none, some [], some "6".toList]]
            err := none })
        (fun _ => none))) "q".toList =
      Outcome.ret ([["1".toList, "2".toList, "3".toList], [[], [], "6".toList]], none) :=
  (extract_returns_rows _ "q".toList
    { columns := Except.ok ["col1".toList, "col2".toList, "col3".toList]
      rows := List.map Except.ok
        [[some "1".toList, some "2".toList, some "3".toList], [none, some [], some "6".toList]]
      err := none }
    ["col1".toList, "col2".toList, "col3".toList]
    [[some "1".toList, some "2".toList, some "3".toList], [none, some [], some "6".toList]]
    rfl rfl rfl (by decide)).1

theorem extract_query_error (c : Client) (query : GoString) (e : GoError)
    (h : c.cfg.SourceDB query = Except.error e) :
    extract c query =
      Outcome.panic "runtime error: invalid memory address or nil pointer dereference" := by
  simp only [extract, h, rowsClose]

theorem extract_columns_error (c : Client) (query : GoString) (rows : Rows) (e : GoError)
    (h : c.cfg.SourceDB query = Except.ok rows) (hc : rows.columns = Except.error e) :
    extract c query = Outcome.ret ([], some e) := by
  simp only [extract, h, hc, rowsClose]

theorem extractLoop_scan_error (ncols : Nat) (before : List (List (Option GoString)))
    (bad : RowData) (after : List RowData) (acc : List (List GoString)) (e : GoError)
    (hb : ∀ r ∈ before, r.length = ncols) (he : scan ncols bad = Except.error e) :
    extractLoop ncols (before.map Except.ok ++ bad :: after) acc = ([], some e) := by
  induction before generalizing acc with
  | nil => simp only [List.map_nil, List.nil_append, extractLoop, he]
  | cons r rest ih =>
    have hr : r.length = ncols := hb r (List.mem_cons_self _ _)
    simp only [List.map_cons, List.cons_append, extractLoop, scan, hr, if_true]
    exact ih _ fun x hx => hb x (List.mem_cons_of_mem _ hx)

theorem extract_ignores_rows_err (c1 c2 : Client) (query : GoString) (rows : Rows)
    (e1 e2 : Option GoError)
    (h1 : c1.cfg.SourceDB query = Except.ok { rows with err := e1 })
    (h2 : c2.cfg.SourceDB query = Except.ok { rows with err := e2 }) :
    extract c1 query = extract c2 query := by
  simp only [extract, h1, h2, rowsClose]

/-- C3: evaluation at the failing inputs. When `Query` fails, the deferred
`rows.Close()` runs on nil rows and `extract` panics instead of returning the
error; when iteration stops early with an error after the first row,
`extract` returns the one row read with a nil error. -/
theorem extract_failures :
    extract (New (testConfig okSession (fun _ => Except.error ⟨"query failed"⟩) (fun _ => none)))
        "q".toList =
      Outcome.panic "runtime error: invalid memory address or nil pointer dereference" ∧
    extract (New (testConfig okSession
        (fun _ => Except.ok
          { columns := Except.ok ["col1".toList, "col2".toList, "col3".toList]
            rows := [Except.ok [some "1".toList, some "2".toList, some "3".toList]]
            err := some ⟨"connection lost"⟩ })
        (fun _ => none))) "q".toList =
      Outcome.ret ([["1".toList, "2".toList, "3".toList]], none) := by
  constructor <;> rfl

/-! ### load -/

theorem QuoteRune_printable (wide : Int → Bool) (d : Int) (hlo : 0x20 ≤ d) (hhi : d ≤ 0x7E) (hq : d ≠ 39) (hb : d ≠ 92) :
    QuoteRune wide d = ['\'', runeChar d, '\''] := by
  have hv : validRune d = true := by
    simp only [validRune, Bool.or_eq_true, Bool.and_eq_true, decide_eq_true_eq]
    left
    constructor <;> omega
  have hp : IsPrint wide d = true := by
    have h1 : d ≤ 0xFF := by omega
    simp [IsPrint, h1, hlo, hhi]
  have hne : ¬(d = 39 ∨ d = 92) := by
    rintro (h | h)
    · exact hq h
    · exact hb h
  simp [QuoteRune, hv, appendEscapedRune, hp, hne]

/-- C5: for a delimiter `d` that is a printable ASCII character other than the
single quote and the backslash, `load` executes exactly one statement, and it
is `COPY <schema>.<table> FROM 's3://<bucket>/<key>' CREDENTIALS '<credentials>'
CSV DELIMITER '<d>' <extra-params> REGION '<region>'` with every value
verbatim, the clauses in this order and only whitespace between them. -/
theorem load_statement (wide : Int → Bool) (c : Client) (key : GoString)
    (hlo : 0x20 ≤ c.cfg.CSVDelimiter) (hhi : c.cfg.CSVDelimiter ≤ 0x7E)
    (hq : c.cfg.CSVDelimiter ≠ 39) (hb : c.cfg.CSVDelimiter ≠ 92) :
    (load wide c key).executed =
      ["\n\t\t".toList ++
       "COPY ".toList ++ c.cfg.Redshift.Schema ++ ".".toList ++ c.cfg.Redshift.Table ++
       "\n\t\t".toList ++
       "FROM 's3://".toList ++ c.cfg.S3.Bucket ++ "/".toList ++ key ++ "'".toList ++
       " ".toList ++
       "CREDENTIALS '".toList ++ c.cfg.Redshift.CredentialsParam ++ "'".toList ++
       "\n\t\t".toList ++
       "CSV DELIMITER '".toList ++ [runeChar c.cfg.CSVDelimiter] ++ "'".toList ++
       " ".toList ++
       c.cfg.Redshift.CopyParams ++
       "\n\t\t".toList ++
       "REGION '".toList ++ c.cfg.S3.Region ++ "'".toList ++
       "\n\t\t".toList] := by
  simp only [load, loadStatement, QuoteRune_printable wide _ hlo hhi hq hb]
  simp

/-- C5 (witness): the configuration of `TestExec` with the delimiter `|`. -/
theorem load_statement_witness :
    (load (fun _ => false)
        { cfg := { testConfig okSession (fun _ => Except.ok testRows) (fun _ => none) with
                   CSVDelimiter := 124 } }
        "test_prefix/test_key".toList).executed =
      [("\n\t\tCOPY test_schema.test_table\n\t\tFROM 's3://test_bucket/test_prefix/test_key' " ++
        "CREDENTIALS ''\n\t\tCSV DELIMITER '|' \n\t\tREGION ''\n\t\t").toList] :=
  load_statement (fun _ => false)
    { cfg := { testConfig okSession (fun _ => Except.ok testRows) (fun _ => none) with
               CSVDelimiter := 124 } }
    "test_prefix/test_key".toList (by decide) (by decide) (by decide) (by decide)

/-! ### Exec -/

theorem Exec_extract_error (rt : Runtime) (c : Client) (query : GoString)
    (res : List (List GoString)) (e : GoError)
    (h : extract c query = Outcome.ret (res, some e)) :
    Exec rt c query =
      { outcome := Outcome.ret (some e), calls := [Call.extract query], executed := [] } := by
  simp only [Exec, h]

theorem Exec_transform_error (rt : Runtime) (c : Client) (query : GoString)
    (res : List (List GoString)) (e : GoError)
    (h : extract c query = Outcome.ret (res, none))
    (ht : transform rt.schedule c res (s3Key c) = Outcome.ret (some e)) :
    Exec rt c query =
      { outcome := Outcome.ret (some e),
        calls := [Call.extract query, Call.transform res (s3Key c)], executed := [] } := by
  simp only [Exec, h, ht]

theorem Exec_all_stages (rt : Runtime) (c : Client) (query : GoString)
    (res : List (List GoString))
    (h : extract c query = Outcome.ret (res, none))
    (ht : transform rt.schedule c res (s3Key c) = Outcome.ret none) :
    Exec rt c query =
      { outcome := Outcome.ret none,
        calls := [Call.extract query, Call.transform res (s3Key c), Call.load (s3Key c)],
        executed := [loadStatement rt.wide c (s3Key c)] } := by
  simp only [Exec, h, ht, load]

theorem Exec_cases (rt : Runtime) (c : Client) (query : GoString) :
    ((Exec rt c query).calls = [Call.extract query] ∧ (Exec rt c query).executed = []) ∨
    (∃ res, (Exec rt c query).calls = [Call.extract query, Call.transform res (s3Key c)] ∧
      (Exec rt c query).executed = []) ∨
    (∃ res, (Exec rt c query).calls =
        [Call.extract query, Call.transform res (s3Key c), Call.load (s3Key c)] ∧
      (Exec rt c query).executed = [loadStatement rt.wide c (s3Key c)]) := by
  cases h : extract c query with
  | panic p => left; simp only [Exec, h, and_self]
  | blocked => left; simp only [Exec, h, and_self]
  | ret r =>
    obtain ⟨res, err⟩ := r
    cases err with
    | some e => left; simp only [Exec, h, and_self]
    | none =>
      right
      cases ht : transform rt.schedule c res (s3Key c) with
      | panic p => left; exact ⟨res, by simp only [Exec, h, ht, and_self]⟩
      | blocked => left; exact ⟨res, by simp only [Exec, h, ht, and_self]⟩
      | ret terr =>
        cases terr with
        | some e => left; exact ⟨res, by simp only [Exec, h, ht, and_self]⟩
        | none => right; exact ⟨res, by simp only [Exec, h, ht, load, and_self]⟩

/-- C6: `Exec` runs extract, then transform, then load, and stops at the first
failure of the first two: when extract returns an error `e`, `Exec` returns
`e` having invoked extract only; when extract succeeds and transform returns
an error `e`, `Exec` returns `e` having invoked extract and transform only
and no statement is executed; when both succeed the three stages are invoked
in this order. -/
theorem Exec_stops_at_first_failure (rt : Runtime) (c : Client) (query : GoString) :
    (∀ res e, extract c query = Outcome.ret (res, some e) →
      (Exec rt c query).outcome = Outcome.ret (some e) ∧
      (Exec rt c query).calls = [Call.extract query] ∧
      (Exec rt c query).executed = []) ∧
    (∀ res e, extract c query = Outcome.ret (res, none) →
      transform rt.schedule c res (s3Key c) = Outcome.ret (some e) →
      (Exec rt c query).outcome = Outcome.ret (some e) ∧
      (Exec rt c query).calls = [Call.extract query, Call.transform res (s3Key c)] ∧
      (Exec rt c query).executed = []) ∧
    (∀ res, extract c query = Outcome.ret (res, none) →
      transform rt.schedule c res (s3Key c) = Outcome.ret none →
      (Exec rt c query).calls =
        [Call.extract query, Call.transform res (s3Key c), Call.load (s3Key c)]) := by
  refine ⟨?_, ?_, ?_⟩
  · intro res e h
    rw [Exec_extract_error rt c query res e h]
    exact ⟨rfl, rfl, rfl⟩
  · intro res e h ht
    rw [Exec_transform_error rt c query res e h ht]
    exact ⟨rfl, rfl, rfl⟩
  · intro res h ht
    rw [Exec_all_stages rt c query res h ht]

/-- C6 (witness): the scenario of `TestExec`, first with a cursor whose column
metadata cannot be read, then with a session whose upload fails. -/
theorem Exec_stops_at_first_failure_witness :
    ((Exec fairRuntime
        (New (testConfig okSession
          (fun _ => Except.ok { columns := Except.error ⟨"no columns"⟩, rows := [], err := none })
          (fun _ => none))) "q".toList).outcome = Outcome.ret (some ⟨"no columns"⟩) ∧
      (Exec fairRuntime
        (New (testConfig okSession
          (fun _ => Except.ok { columns := Except.error ⟨"no columns"⟩, rows := [], err := none })
          (fun _ => none))) "q".toList).calls = [Call.extract "q".toList] ∧
      (Exec fairRuntime
        (New (testConfig okSession
          (fun _ => Except.ok { columns := Except.error ⟨"no columns"⟩, rows := [], err := none })
          (fun _ => none))) "q".toList).executed = []) ∧
    ((Exec fairRuntime
        (New (testConfig (failingSession ⟨"upload failed"⟩) (fun _ => Except.ok testRows)
          (fun _ => none))) "q".toList).outcome = Outcome.ret (some ⟨"upload failed"⟩) ∧
      (Exec fairRuntime
        (New (testConfig (failingSession ⟨"upload failed"⟩) (fun _ => Except.ok testRows)
          (fun _ => none))) "q".toList).calls =
        [Call.extract "q".toList,
         Call.transform [["1".toList, "2".toList, "3".toList], ["4".toList, "5".toList, "6".toList]]
           "test_prefix/test_key".toList] ∧
      (Exec fairRuntime
        (New (testConfig (failingSession ⟨"upload failed"⟩) (fun _ => Except.ok testRows)
          (fun _ => none))) "q".toList).executed = []) :=
  ⟨(Exec_stops_at_first_failure fairRuntime _ "q".toList).1 [] ⟨"no columns"⟩ rfl,
   (Exec_stops_at_first_failure fairRuntime _ "q".toList).2.1
     [["1".toList, "2".toList, "3".toList], ["4".toList, "5".toList, "6".toList]]
     ⟨"upload failed"⟩ rfl rfl⟩

theorem Exec_invokes_transform (rt : Runtime) (c : Client) (query : GoString)
    (res : List (List GoString)) (h : extract c query = Outcome.ret (res, none)) :
    Call.transform res (s3Key c) ∈ (Exec rt c query).calls := by
  cases ht : transform rt.schedule c res (s3Key c) with
  | panic p => simp [Exec, h, ht]
  | blocked => simp [Exec, h, ht]
  | ret terr =>
    cases terr with
    | some e => simp [Exec, h, ht]
    | none => simp [Exec, h, ht]

/-- C7: the object key `Exec` computes is the key alone when the prefix is
empty and prefix, slash, key otherwise. Whenever extract succeeds, `Exec`
invokes transform with the table and this key; when transform succeeds too,
the stages invoked are extract, transform with this key and load with this
key, and the one statement executed is the COPY statement for this key. No
transform or load that `Exec` invokes gets another key and no other
statement is executed. Prefix `p` and key `k` give `p/k`; an empty prefix
gives `k`. -/
theorem Exec_object_key (rt : Runtime) (c : Client) (query : GoString) :
    s3Key c =
      (if c.cfg.S3.Prefix = [] then c.cfg.S3.Key
       else c.cfg.S3.Prefix ++ "/".toList ++ c.cfg.S3.Key) ∧
    (∀ res, extract c query = Outcome.ret (res, none) →
      Call.transform res (s3Key c) ∈ (Exec rt c query).calls) ∧
    (∀ res, extract c query = Outcome.ret (res, none) →
      transform rt.schedule c res (s3Key c) = Outcome.ret none →
      (Exec rt c query).calls =
        [Call.extract query, Call.transform res (s3Key c), Call.load (s3Key c)] ∧
      (Exec rt c query).executed = [loadStatement rt.wide c (s3Key c)]) ∧
    (∀ call ∈ (Exec rt c query).calls,
      (∀ res k, call = Call.transform res k → k = s3Key c) ∧
      (∀ k, call = Call.load k → k = s3Key c)) ∧
    (∀ stmt ∈ (Exec rt c query).executed, stmt = loadStatement rt.wide c (s3Key c)) ∧
    s3Key { cfg := { c.cfg with S3 := { c.cfg.S3 with Prefix := "p".toList, Key := "k".toList } } }
      = "p/k".toList ∧
    s3Key { cfg := { c.cfg with S3 := { c.cfg.S3 with Prefix := [], Key := "k".toList } } }
      = "k".toList := by
  refine ⟨?_, ?_, ?_, ?_, ?_, rfl, rfl⟩
  · unfold s3Key
    by_cases h : c.cfg.S3.Prefix = [] <;> simp [h]
  · exact fun res h => Exec_invokes_transform rt c query res h
  · intro res h ht
    rw [Exec_all_stages rt c query res h ht]
    exact ⟨rfl, rfl⟩
  · intro call hcall
    rcases Exec_cases rt c query with ⟨h, _⟩ | ⟨res, h, _⟩ | ⟨res, h, _⟩ <;>
      rw [h] at hcall <;>
      simp only [List.mem_cons, List.mem_singleton, List.not_mem_nil, or_false] at hcall
    · subst hcall
      exact ⟨fun _ _ hk => (by cases hk), fun _ hk => (by cases hk)⟩
    · rcases hcall with h1 | h1 <;> subst h1
      · exact ⟨fun _ _ hk => (by cases hk), fun _ hk => (by cases hk)⟩
      · exact ⟨fun _ _ hk => (by cases hk; rfl), fun _ hk => (by cases hk)⟩
    · rcases hcall with h1 | h1 | h1 <;> subst h1
      · exact ⟨fun _ _ hk => (by cases hk), fun _ hk => (by cases hk)⟩
      · exact ⟨fun _ _ hk => (by cases hk; rfl), fun _ hk => (by cases hk)⟩
      · exact ⟨fun _ _ hk => (by cases hk), fun _ hk => (by cases hk; rfl)⟩
  · intro stmt hstmt
    rcases Exec_cases rt c query with ⟨_, h⟩ | ⟨res, _, h⟩ | ⟨res, _, h⟩ <;>
      rw [h] at hstmt <;>
      simp only [List.mem_singleton, List.not_mem_nil] at hstmt
    exact hstmt

/-- C7 (witness): in the scenario of `TestExec` (prefix `test_prefix`, key
`test_key`), `Exec` invokes extract, then transform with the table and the
key `test_prefix/test_key`, then load with the same key, and the one
statement it has the warehouse execute names `s3://test_bucket/test_prefix/test_key`.
With a session whose upload fails after the body is read, `Exec` still
invokes transform with that key. -/
theorem Exec_object_key_witness :
    ((Exec fairRuntime
          (New (testConfig okSession (fun _ => Except.ok testRows) (fun _ => none)))
          "SELECT * FROM test_schema.test_table".toList).calls =
        [Call.extract "SELECT * FROM test_schema.test_table".toList,
         Call.transform [["1".toList, "2".toList, "3".toList], ["4".toList, "5".toList, "6".toList]]
           "test_prefix/test_key".toList,
         Call.load "test_prefix/test_key".toList] ∧
      (Exec fairRuntime
          (New (testConfig okSession (fun _ => Except.ok testRows) (fun _ => none)))
          "SELECT * FROM test_schema.test_table".toList).executed =
        [("\n\t\tCOPY test_schema.test_table\n\t\tFROM 's3://test_bucket/test_prefix/test_key' " ++
          "CREDENTIALS ''\n\t\tCSV DELIMITER ',' \n\t\tREGION ''\n\t\t").toList]) ∧
    Call.transform [["1".toList, "2".toList, "3".toList], ["4".toList, "5".toList, "6".toList]]
        "test_prefix/test_key".toList ∈
      (Exec fairRuntime
          (New (testConfig (rejectingSession ⟨"upload failed"⟩) (fun _ => Except.ok testRows)
            (fun _ => none)))
          "SELECT * FROM test_schema.test_table".toList).calls :=
  ⟨(Exec_object_key fairRuntime
        (New (testConfig okSession (fun _ => Except.ok testRows) (fun _ => none)))
        "SELECT * FROM test_schema.test_table".toList).2.2.1
      [["1".toList, "2".toList, "3".toList], ["4".toList, "5".toList, "6".toList]] rfl rfl,
   (Exec_object_key fairRuntime
        (New (testConfig (rejectingSession ⟨"upload failed"⟩) (fun _ => Except.ok testRows)
          (fun _ => none)))
        "SELECT * FROM test_schema.test_table".toList).2.1
      [["1".toList, "2".toList, "3".toList], ["4".toList, "5".toList, "6".toList]] rfl⟩

theorem Exec_error_origin (rt : Runtime) (c : Client) (query : GoString) (e : GoError)
    (h : (Exec rt c query).outcome = Outcome.ret (some e)) :
    (∃ res, extract c query = Outcome.ret (res, some e)) ∨
    (∃ res, extract c query = Outcome.ret (res, none) ∧
      transform rt.schedule c res (s3Key c) = Outcome.ret (some e)) := by
  cases hx : extract c query with
  | panic p => simp [Exec, hx] at h
  | blocked => simp [Exec, hx] at h
  | ret r =>
    obtain ⟨res, err⟩ := r
    cases err with
    | some e1 =>
      simp only [Exec, hx, Outcome.ret.injEq, Option.some.injEq] at h
      subst h
      exact Or.inl ⟨res, rfl⟩
    | none =>
      right
      refine ⟨res, rfl, ?_⟩
      cases ht : transform rt.schedule c res (s3Key c) with
      | panic p => simp [Exec, hx, ht] at h
      | blocked => simp [Exec, hx, ht] at h
      | ret terr =>
        cases terr with
        | some e1 =>
          simp only [Exec, hx, ht, Outcome.ret.injEq, Option.some.injEq] at h
          subst h
          rfl
        | none => simp [Exec, hx, ht] at h

/-- C1: evaluation at the failing input. With the rows of `TestExec`, an
upload that succeeds and a warehouse that fails the COPY statement with
`copy failed`, `load` returns that error and `Exec` returns nil. -/
theorem Exec_drops_load_error :
    (load fairRuntime.wide
        (New (testConfig okSession (fun _ => Except.ok testRows) (fun _ => some ⟨"copy failed"⟩)))
        "test_prefix/test_key".toList).err = some ⟨"copy failed"⟩ ∧
    Exec fairRuntime
        (New (testConfig okSession (fun _ => Except.ok testRows) (fun _ => some ⟨"copy failed"⟩)))
        "SELECT * FROM test_schema.test_table".toList =
      { outcome := Outcome.ret none,
        calls :=
          [Call.extract "SELECT * FROM test_schema.test_table".toList,
           Call.transform [["1".toList, "2".toList, "3".toList], ["4".toList, "5".toList, "6".toList]]
             "test_prefix/test_key".toList,
           Call.load "test_prefix/test_key".toList],
        executed :=
          [("\n\t\tCOPY test_schema.test_table\n\t\tFROM 's3://test_bucket/test_prefix/test_key' " ++
            "CREDENTIALS ''\n\t\tCSV DELIMITER ',' \n\t\tREGION ''\n\t\t").toList] } := by
  constructor <;> rfl

/-! ### Goroutine code run alone -/

theorem Prog_run_bind {α β : Type} (m : Prog α) (f : α → Prog β) (s : Surround) :
    (m.bind f).run s = (f (m.run s).1).run (m.run s).2 := by
  induction m generalizing s with
  | done a => rfl
  | pipeWrite p k ih =>
    simp only [Prog.bind, Prog.run]
    cases s.failure s.writes with
    | none => exact ih none _
    | some e => exact ih (some e) _
  | pipeClose k ih => simp only [Prog.bind, Prog.run]; exact ih _
  | chanSend v k ih => simp only [Prog.bind, Prog.run]; exact ih _
  | chanClose k ih => simp only [Prog.bind, Prog.run]; exact ih _

theorem PipeOnly_bind {α β : Type} {m : Prog α} {f : α → Prog β} (hm : PipeOnly m)
    (hf : ∀ a, PipeOnly (f a)) : PipeOnly (m.bind f) := by
  induction hm with
  | done a => exact hf a
  | pipeWrite p k _ ih => exact PipeOnly.pipeWrite _ _ ih

theorem PipeOnly_frame {α : Type} {m : Prog α} (hm : PipeOnly m) (s : Surround) :
    (m.run s).2.wClosed = s.wClosed ∧ (m.run s).2.sent = s.sent ∧
    (m.run s).2.errcClosed = s.errcClosed ∧ (m.run s).2.failure = s.failure := by
  induction hm generalizing s with
  | done a => exact ⟨rfl, rfl, rfl, rfl⟩
  | pipeWrite p k _ ih =>
    simp only [Prog.run]
    cases s.failure s.writes with
    | none => exact ih none _
    | some e => exact ih (some e) _

theorem Flush_pipeOnly (b : BufioWriter) : PipeOnly b.Flush := by
  unfold BufioWriter.Flush
  split
  · exact PipeOnly.done _
  · split
    · exact PipeOnly.done _
    · refine PipeOnly.pipeWrite _ _ fun r => ?_
      cases r <;> exact PipeOnly.done _

theorem WriteByte_pipeOnly (b : BufioWriter) (c : Char) : PipeOnly (b.WriteByte c) := by
  unfold BufioWriter.WriteByte
  split
  · exact PipeOnly.done _
  · split
    · refine PipeOnly_bind (Flush_pipeOnly b) fun b1 => ?_
      split <;> exact PipeOnly.done _
    · exact PipeOnly.done _

theorem writeStringLoop_pipeOnly (fuel : Nat) (b : BufioWriter) (t : GoString) :
    PipeOnly (BufioWriter.writeStringLoop fuel b t) := by
  induction fuel generalizing b t with
  | zero => exact PipeOnly.done _
  | succ n ih =>
    unfold BufioWriter.writeStringLoop
    split
    · exact PipeOnly_bind (Flush_pipeOnly _) fun b1 => ih _ _
    · exact PipeOnly.done _

theorem WriteString_pipeOnly (b : BufioWriter) (t : GoString) : PipeOnly (b.WriteString t) := by
  unfold BufioWriter.WriteString
  refine PipeOnly_bind (writeStringLoop_pipeOnly _ _ _) fun r => ?_
  split <;> exact PipeOnly.done _

theorem writeQuotedBody_pipeOnly (b : BufioWriter) (t : GoString) :
    PipeOnly (writeQuotedBody b t) := by
  induction t generalizing b with
  | nil => exact PipeOnly.done _
  | cons c rest ih =>
    unfold writeQuotedBody
    refine PipeOnly_bind ?_ fun b1 => ?_
    · split
      · exact WriteString_pipeOnly _ _
      · exact WriteByte_pipeOnly _ _
    · split
      · exact PipeOnly.done _
      · exact ih _

theorem writeField_pipeOnly (comma : Char) (b : BufioWriter) (t : GoString) :
    PipeOnly (writeField comma b t) := by
  unfold writeField
  split
  · exact WriteString_pipeOnly _ _
  · refine PipeOnly_bind (WriteByte_pipeOnly _ _) fun b1 => ?_
    split
    · exact PipeOnly.done _
    · refine PipeOnly_bind (writeQuotedBody_pipeOnly _ _) fun b2 => ?_
      split
      · exact PipeOnly.done _
      · exact WriteByte_pipeOnly _ _

theorem writeFields_pipeOnly (comma : Char) (b : BufioWriter) (n : Nat) (fs : List GoString) :
    PipeOnly (writeFields comma b n fs) := by
  induction fs generalizing b n with
  | nil => exact PipeOnly.done _
  | cons f rest ih =>
    unfold writeFields
    refine PipeOnly_bind ?_ fun b1 => ?_
    · split
      · exact WriteByte_pipeOnly _ _
      · exact PipeOnly.done _
    · split
      · exact PipeOnly.done _
      · refine PipeOnly_bind (writeField_pipeOnly _ _ _) fun b2 => ?_
        split
        · exact PipeOnly.done _
        · exact ih _ _

theorem CsvWriter_Write_pipeOnly (cw : CsvWriter) (record : List GoString) :
    PipeOnly (cw.Write record) := by
  unfold CsvWriter.Write
  refine PipeOnly_bind (writeFields_pipeOnly _ _ _ _) fun b1 => ?_
  split
  · exact PipeOnly.done _
  · exact PipeOnly_bind (WriteByte_pipeOnly _ _) fun b2 => PipeOnly.done _

theorem CsvWriter_Flush_pipeOnly (cw : CsvWriter) : PipeOnly cw.Flush := by
  unfold CsvWriter.Flush
  exact PipeOnly_bind (Flush_pipeOnly _) fun b => PipeOnly.done _

/-- In every run of the serializer loop, from surroundings in which nothing
was sent and both ends are open, either the writer end is closed and nothing
is sent on `errc`, or one error is sent, `errc` is closed and the writer end
stays open. -/
theorem serializerLoop_ends (cw : CsvWriter) (records : List (List GoString)) (s : Surround)
    (hw : s.wClosed = false) (hs : s.sent = []) (hc : s.errcClosed = false) :
    (((serializerLoop cw records).run s).2.wClosed = true ∧
      ((serializerLoop cw records).run s).2.sent = [] ∧
      ((serializerLoop cw records).run s).2.errcClosed = false) ∨
    (((serializerLoop cw records).run s).2.wClosed = false ∧
      (∃ e, ((serializerLoop cw records).run s).2.sent = [some e]) ∧
      ((serializerLoop cw records).run s).2.errcClosed = true) := by
  induction records generalizing cw s with
  | nil =>
    left
    obtain ⟨_, h2, h3, _⟩ := PipeOnly_frame (CsvWriter_Flush_pipeOnly cw) s
    simp only [serializerLoop, Prog_run_bind, Prog.run]
    exact ⟨trivial, by rw [h2, hs], by rw [h3, hc]⟩
  | cons row rest ih =>
    obtain ⟨h1, h2, h3, _⟩ := PipeOnly_frame (CsvWriter_Write_pipeOnly cw row) s
    simp only [serializerLoop, Prog_run_bind]
    cases hr : ((cw.Write row).run s).1.2 with
    | none => exact ih _ _ (by rw [h1, hw]) (by rw [h2, hs]) (by rw [h3, hc])
    | some e =>
      right
      simp only [Prog.run]
      exact ⟨by rw [h1, hw], ⟨e, by rw [h2, hs]; rfl⟩, trivial⟩

theorem writeStringLoop_of_err (fuel : Nat) (b : BufioWriter) (t : GoString)
    (h : b.err ≠ none) : BufioWriter.writeStringLoop fuel b t = Prog.done (b, t) := by
  cases fuel with
  | zero => rfl
  | succ n =>
    rw [BufioWriter.writeStringLoop, if_neg]
    exact fun hc => h hc.2

/-- The bound on the rounds of the loop of `WriteString` is never what ends
it: when the loop stops, the writer has an error or the rest of the text
fits the buffer. -/
theorem writeStringLoop_exit (fuel : Nat) : ∀ (b : BufioWriter) (t : GoString) (s : Surround),
    t.length + (if b.Available = 0 then 1 else 0) ≤ fuel →
    ((BufioWriter.writeStringLoop fuel b t).run s).1.1.err ≠ none ∨
    ((BufioWriter.writeStringLoop fuel b t).run s).1.2.length ≤
      ((BufioWriter.writeStringLoop fuel b t).run s).1.1.Available := by
  induction fuel with
  | zero =>
    intro b t s h
    right
    simp only [BufioWriter.writeStringLoop, Prog.run]
    omega
  | succ n ih =>
    intro b t s h
    rw [BufioWriter.writeStringLoop]
    by_cases hc : t.length > b.Available ∧ b.err = none
    · rw [if_pos hc]
      obtain ⟨hlen, herr⟩ := hc
      have hbuf : (b.buf ++ t.take b.Available).length ≠ 0 := by
        simp only [List.length_append, List.length_take, BufioWriter.Available, defaultBufSize]
          at hlen ⊢
        omega
      simp only [BufioWriter.Flush, herr, hbuf, if_false, Prog.bind, Prog.run]
      cases s.failure s.writes with
      | some e =>
        simp only [Prog.run, Prog.bind]
        rw [writeStringLoop_of_err _ _ _ (by simp)]
        left
        simp [Prog.run]
      | none =>
        simp only [Prog.run, Prog.bind]
        apply ih
        simp only [BufioWriter.Available, defaultBufSize, List.length_nil, List.length_drop] at h hlen ⊢
        split at h <;> simp <;> omega
    · rw [if_neg hc]
      simp only [Prog.run]
      by_cases herr : b.err = none
      · right
        have : ¬ t.length > b.Available := fun h1 => hc ⟨h1, herr⟩
        omega
      · left
        exact herr

theorem WriteString_loop_ends (b : BufioWriter) (t : GoString) (s : Surround) :
    ((BufioWriter.writeStringLoop (t.length + 1) b t).run s).1.1.err ≠ none ∨
    ((BufioWriter.writeStringLoop (t.length + 1) b t).run s).1.2.length ≤
      ((BufioWriter.writeStringLoop (t.length + 1) b t).run s).1.1.Available :=
  writeStringLoop_exit _ b t s (by split <;> omega)

/-! ### The text the serializer writes when the reader takes everything -/

theorem Emits_done (b : BufioWriter) (h : b.err = none) : Emits b [] (Prog.done b) := by
  intro s hs
  exact ⟨h, by simp [Prog.run], hs, rfl⟩

theorem Emits_bind {b : BufioWriter} {t u : GoString} {m : Prog BufioWriter}
    {f : BufioWriter → Prog BufioWriter} (hm : Emits b t m)
    (hf : ∀ b1, b1.err = none → Emits b1 u (f b1)) : Emits b (t ++ u) (m.bind f) := by
  intro s hs
  obtain ⟨h1, h2, h3, h4⟩ := hm s hs
  obtain ⟨g1, g2, g3, g4⟩ := hf _ h1 _ h3
  rw [Prog_run_bind]
  refine ⟨g1, ?_, g3, by rw [g4, h4]⟩
  rw [g2, ← List.append_assoc, h2, List.append_assoc]

theorem Flush_emits (b : BufioWriter) (h : b.err = none) : Emits b [] b.Flush := by
  intro s hs
  unfold BufioWriter.Flush
  simp only [h]
  split
  · exact ⟨h, by simp [Prog.run], hs, rfl⟩
  · simp only [Prog.run, hs s.writes]
    exact ⟨by first | rfl | trivial, by simp, hs, by first | rfl | trivial⟩

theorem WriteByte_emits (b : BufioWriter) (c : Char) (h : b.err = none) :
    Emits b [c] (b.WriteByte c) := by
  unfold BufioWriter.WriteByte
  simp only [h]
  split
  · have := Emits_bind (u := [c]) (Flush_emits b h)
      (f := fun b1 =>
        match b1.err with
        | some _ => Prog.done b1
        | none => Prog.done { b1 with buf := b1.buf ++ [c] })
      (fun b1 h1 => by
        simp only [h1]
        intro s hs
        exact ⟨rfl, by simp [Prog.run], hs, rfl⟩)
    simpa using this
  · intro s hs
    exact ⟨rfl, by simp [Prog.run], hs, rfl⟩

theorem writeStringLoop_emits (fuel : Nat) (b : BufioWriter) (t : GoString) (h : b.err = none)
    (s : Surround) (hs : Accepting s) :
    ((BufioWriter.writeStringLoop fuel b t).run s).1.1.err = none ∧
    ((BufioWriter.writeStringLoop fuel b t).run s).2.written ++
        ((BufioWriter.writeStringLoop fuel b t).run s).1.1.buf ++
        ((BufioWriter.writeStringLoop fuel b t).run s).1.2 = s.written ++ b.buf ++ t ∧
    Accepting ((BufioWriter.writeStringLoop fuel b t).run s).2 ∧
    ((BufioWriter.writeStringLoop fuel b t).run s).2.wClosed = s.wClosed := by
  induction fuel generalizing b t s with
  | zero => exact ⟨h, rfl, hs, rfl⟩
  | succ n ih =>
    unfold BufioWriter.writeStringLoop
    split
    · rw [Prog_run_bind]
      have hb : ({ b with buf := b.buf ++ t.take b.Available } : BufioWriter).err = none := h
      obtain ⟨h1, h2, h3, h4⟩ := Flush_emits _ hb s hs
      obtain ⟨g1, g2, g3, g4⟩ := ih _ (t.drop b.Available) h1 _ h3
      refine ⟨g1, ?_, g3, by rw [g4, h4]⟩
      rw [g2, h2]
      simp
    · exact ⟨h, rfl, hs, rfl⟩

theorem WriteString_emits (b : BufioWriter) (t : GoString) (h : b.err = none) :
    Emits b t (b.WriteString t) := by
  intro s hs
  unfold BufioWriter.WriteString
  rw [Prog_run_bind]
  obtain ⟨h1, h2, h3, h4⟩ := writeStringLoop_emits (t.length + 1) b t h s hs
  generalize (BufioWriter.writeStringLoop (t.length + 1) b t).run s = r at h1 h2 h3 h4
  obtain ⟨⟨b1, rest⟩, s1⟩ := r
  simp only at h1 h2 h3 h4
  simp only [h1, Prog.run]
  refine ⟨by first | rfl | trivial, ?_, h3, h4⟩
  rw [← h2]
  simp

theorem writeQuotedBody_emits (b : BufioWriter) (t : GoString) (h : b.err = none) :
    Emits b (escapeQuotes t) (writeQuotedBody b t) := by
  induction t generalizing b with
  | nil => exact Emits_done b h
  | cons c rest ih =>
    unfold writeQuotedBody escapeQuotes
    refine Emits_bind ?_ fun b1 h1 => ?_
    · split
      · exact WriteString_emits _ _ h
      · exact WriteByte_emits _ _ h
    · simp only [h1]
      exact ih b1 h1

theorem writeField_emits (comma : Char) (b : BufioWriter) (t : GoString) (h : b.err = none) :
    Emits b (encodeField comma t) (writeField comma b t) := by
  unfold writeField encodeField
  cases hq : fieldNeedsQuotes comma t with
  | false => simpa using WriteString_emits b t h
  | true =>
    simp only [Bool.not_true, Bool.false_eq_true, if_false, if_true, List.append_assoc]
    refine Emits_bind (WriteByte_emits _ _ h) fun b1 h1 => ?_
    simp only [h1]
    refine Emits_bind (writeQuotedBody_emits _ _ h1) fun b2 h2 => ?_
    simp only [h2]
    exact WriteByte_emits _ _ h2

theorem writeFields_emits (comma : Char) (b : BufioWriter) (n : Nat) (fs : List GoString)
    (h : b.err = none) : Emits b (encodeFields comma n fs) (writeFields comma b n fs) := by
  induction fs generalizing b n with
  | nil => exact Emits_done b h
  | cons f rest ih =>
    unfold writeFields encodeFields
    rw [List.append_assoc]
    refine Emits_bind ?_ fun b1 h1 => ?_
    · split
      · exact WriteByte_emits _ _ h
      · exact Emits_done b h
    · simp only [h1]
      refine Emits_bind (writeField_emits _ _ _ h1) fun b2 h2 => ?_
      simp only [h2]
      exact ih b2 (n + 1) h2

theorem CsvWriter_Write_emits (cw : CsvWriter) (record : List GoString) (h : cw.w.err = none)
    (s : Surround) (hs : Accepting s) :
    ((cw.Write record).run s).1.2 = none ∧
    ((cw.Write record).run s).1.1.Comma = cw.Comma ∧
    ((cw.Write record).run s).1.1.w.err = none ∧
    ((cw.Write record).run s).2.written ++ ((cw.Write record).run s).1.1.w.buf =
      s.written ++ cw.w.buf ++ encodeRecord cw.Comma record ∧
    Accepting ((cw.Write record).run s).2 := by
  unfold CsvWriter.Write encodeRecord
  obtain ⟨h1, h2, h3, _⟩ := writeFields_emits cw.Comma cw.w 0 record h s hs
  obtain ⟨g1, g2, g3, _⟩ := WriteByte_emits _ '\n' h1 _ h3
  rw [Prog_run_bind]
  simp only [h1, Prog_run_bind, Prog.run]
  refine ⟨g1, trivial, g1, ?_, g3⟩
  rw [g2, h2]
  simp

theorem serializerLoop_written (cw : CsvWriter) (records : List (List GoString))
    (h : cw.w.err = none) (s : Surround) (hs : Accepting s) :
    ((serializerLoop cw records).run s).2.written =
      s.written ++ cw.w.buf ++ encodeRecords cw.Comma records := by
  induction records generalizing cw s with
  | nil =>
    obtain ⟨h1, h2, _, _⟩ := Flush_emits cw.w h s hs
    simp only [serializerLoop, CsvWriter.Flush, Prog_run_bind, Prog.run, encodeRecords]
    have hempty : (cw.w.Flush.run s).1.buf = [] := by
      unfold BufioWriter.Flush
      simp only [h]
      split
      · simp only [Prog.run]
        exact List.length_eq_zero.mp (by assumption)
      · simp only [Prog.run, hs s.writes]
    rw [hempty] at h2
    simpa using h2
  | cons row rest ih =>
    obtain ⟨h1, h2, h3, h4, h5⟩ := CsvWriter_Write_emits cw row h s hs
    simp only [serializerLoop, Prog_run_bind, h1, encodeRecords]
    rw [ih _ h3 _ h5, h4, h2]
    simp

/-- The staged object is the text of the table with a tab as delimiter. -/
theorem stagedBytes_eq (records : List (List GoString)) :
    stagedBytes records = encodeRecords '\t' records := by
  unfold stagedBytes serializer
  rw [serializerLoop_written _ _ rfl _ (fun _ => rfl)]
  rfl

/-! ### Reading the staged object back -/

theorem firstLine_append_afterLine (t : GoString) : firstLine t ++ afterLine t = t := by
  induction t with
  | nil => rfl
  | cons c rest ih =>
    by_cases h : c = '\n' <;> simp [firstLine, afterLine, h, ih]

theorem firstLine_append (p t : GoString) (hp : '\n' ∉ p) :
    firstLine (p ++ t) = p ++ firstLine t := by
  induction p with
  | nil => rfl
  | cons c rest ih =>
    have hc : c ≠ '\n' := fun h => hp (by simp [h])
    have hr : '\n' ∉ rest := fun h => hp (List.mem_cons_of_mem _ h)
    simp [firstLine, hc, ih hr]

theorem afterLine_append (p t : GoString) (hp : '\n' ∉ p) :
    afterLine (p ++ t) = afterLine t := by
  induction p with
  | nil => rfl
  | cons c rest ih =>
    have hc : c ≠ '\n' := fun h => hp (by simp [h])
    have hr : '\n' ∉ rest := fun h => hp (List.mem_cons_of_mem _ h)
    simp [afterLine, hc, ih hr]

theorem hasCRLF_suffix (a b : GoString) (h : hasCRLF (a ++ b) = false) : hasCRLF b = false := by
  induction a with
  | nil => exact h
  | cons c rest ih =>
    simp only [List.cons_append, hasCRLF, Bool.or_eq_false_iff] at h
    exact ih h.2

theorem span_ne_of_not_mem (c : Char) (p t : GoString) (hp : c ∉ p) :
    (p ++ c :: t).span (fun x => x != c) = (p, c :: t) := by
  rw [List.span_eq_take_drop]
  induction p with
  | nil => simp [List.takeWhile, List.dropWhile]
  | cons d rest ih =>
    have hd : d ≠ c := fun h => hp (by simp [h])
    have hr : c ∉ rest := fun h => hp (List.mem_cons_of_mem _ h)
    have := ih hr
    simp only [Prod.mk.injEq] at this
    have hdc : (d != c) = true := by simpa using hd
    simp [List.takeWhile, List.dropWhile, hdc, this.1, this.2]

theorem span_ne_all (c : Char) (p : GoString) (hp : c ∉ p) :
    p.span (fun x => x != c) = (p, []) := by
  have := span_ne_of_not_mem c p [] hp
  rw [List.span_eq_take_drop] at this ⊢
  simp only [Prod.mk.injEq] at this ⊢
  constructor
  · rw [List.takeWhile_eq_self_iff]
    intro x hx
    have : x ≠ c := fun h => hp (h ▸ hx)
    simpa using this
  · rw [List.dropWhile_eq_nil_iff]
    intro x hx
    have : x ≠ c := fun h => hp (h ▸ hx)
    simpa using this

theorem first_newline (t : GoString) (h : '\n' ∈ t) :
    ∃ l r, t = l ++ '\n' :: r ∧ '\n' ∉ l := by
  induction t with
  | nil => cases h
  | cons c rest ih =>
    by_cases hc : c = '\n'
    · exact ⟨[], rest, by simp [hc], by simp⟩
    · have hr : '\n' ∈ rest := by
        rcases List.mem_cons.mp h with h1 | h1
        · exact absurd h1.symm hc
        · exact h1
      obtain ⟨l, r, h1, h2⟩ := ih hr
      refine ⟨c :: l, r, by simp [h1], ?_⟩
      intro hm
      rcases List.mem_cons.mp hm with h3 | h3
      · exact hc h3.symm
      · exact h2 h3

theorem hasCRLF_mid (a b : GoString) : hasCRLF (a ++ '\r' :: '\n' :: b) = true := by
  induction a with
  | nil => simp [hasCRLF]
  | cons c rest ih => simp [hasCRLF, ih]

theorem readLine_eq (t : GoString) (hn : '\n' ∈ t) (hcr : hasCRLF t = false) :
    readLine t = some (firstLine t, afterLine t) := by
  obtain ⟨l, r, h1, h2⟩ := first_newline t hn
  subst h1
  have hlast : l.getLast? ≠ some '\r' := by
    intro h
    obtain ⟨l1, hl1⟩ := List.getLast?_eq_some_iff.mp h
    subst hl1
    rw [List.append_assoc] at hcr
    simp only [List.singleton_append] at hcr
    rw [hasCRLF_mid] at hcr
    cases hcr
  rw [firstLine_append _ _ h2, afterLine_append _ _ h2]
  simp only [readLine, span_ne_of_not_mem _ _ _ h2, hlast, if_false, firstLine, afterLine, if_true]

theorem parseQuoted_body (comma : Char) (tail : GoString) (result : GoString → Option Quoted)
    (hnl : '\n' ∈ tail)
    (hbase : ∀ (fuel : Nat) (p cur : GoString), 0 < fuel → '"' ∉ p → '\n' ∉ p →
      parseQuoted comma fuel (firstLine (p ++ '"' :: tail)) (afterLine (p ++ '"' :: tail)) cur =
        result (cur ++ p))
    (f : GoString) : ∀ (fuel : Nat) (p cur : GoString),
    f.length < fuel → '"' ∉ p → '\n' ∉ p →
    hasCRLF (p ++ (escapeQuotes f ++ '"' :: tail)) = false →
    parseQuoted comma fuel (firstLine (p ++ (escapeQuotes f ++ '"' :: tail)))
        (afterLine (p ++ (escapeQuotes f ++ '"' :: tail))) cur = result (cur ++ p ++ f) := by
  induction f with
  | nil =>
    intro fuel p cur hf hq hn _
    simpa [escapeQuotes] using hbase fuel p cur (by simpa using hf) hq hn
  | cons c f1 ih =>
    intro fuel p cur hf hq hn hcr
    by_cases hc : c = '"'
    · subst hc
      obtain ⟨n, rfl⟩ : ∃ n, fuel = n + 1 := ⟨fuel - 1, by omega⟩
      have hlen : f1.length < n := by simpa using hf
      have hcr1 : hasCRLF ([] ++ (escapeQuotes f1 ++ '"' :: tail)) = false := by
        have := hasCRLF_suffix (p ++ ['"', '"']) _ (by simpa [escapeQuotes] using hcr)
        simpa using this
      have := ih n [] (cur ++ p ++ ['"']) hlen (by simp) (by simp) hcr1
      simp only [List.nil_append, List.append_nil] at this
      simp only [escapeQuotes, if_true, List.cons_append, List.nil_append]
      rw [firstLine_append _ _ hn, afterLine_append _ _ hn]
      simp only [firstLine, afterLine, show ('"' : Char) ≠ '\n' by decide, if_false]
      rw [parseQuoted, span_ne_of_not_mem _ _ _ hq]
      simp only [if_true]
      rw [this]
      simp
    · by_cases hcn : c = '\n'
      · subst hcn
        obtain ⟨n, rfl⟩ : ∃ n, fuel = n + 1 := ⟨fuel - 1, by omega⟩
        have hlen : f1.length < n := by simpa using hf
        have hcr1 : hasCRLF ([] ++ (escapeQuotes f1 ++ '"' :: tail)) = false := by
          have := hasCRLF_suffix (p ++ ['\n']) _ (by simpa [escapeQuotes] using hcr)
          simpa using this
        have := ih n [] (cur ++ p ++ ['\n']) hlen (by simp) (by simp) hcr1
        simp only [List.nil_append, List.append_nil] at this hcr1
        simp only [escapeQuotes, show ¬ ('\n' : Char) = '"' by decide, if_false, List.cons_append,
          List.nil_append]
        rw [firstLine_append _ _ hn, afterLine_append _ _ hn]
        simp only [firstLine, afterLine, if_true]
        have hq2 : '"' ∉ p ++ ['\n'] := by
          simp only [List.mem_append, List.mem_singleton, not_or]
          exact ⟨hq, by decide⟩
        rw [parseQuoted, span_ne_all _ _ hq2]
        have hmem : '\n' ∈ escapeQuotes f1 ++ '"' :: tail := by
          simp only [List.mem_append, List.mem_cons]
          exact Or.inr (Or.inr hnl)
        simp only [List.length_append, List.length_singleton, gt_iff_lt, Nat.lt_add_left_iff_pos,
          Nat.lt_one_iff, pos_of_gt, if_true, readLine_eq _ hmem hcr1, Nat.zero_lt_succ]
        rw [← List.append_assoc, this]
        simp
      · have hq2 : '"' ∉ p ++ [c] := by
          simp only [List.mem_append, List.mem_singleton, not_or]
          exact ⟨hq, fun h => hc h.symm⟩
        have hn2 : '\n' ∉ p ++ [c] := by
          simp only [List.mem_append, List.mem_singleton, not_or]
          exact ⟨hn, fun h => hcn h.symm⟩
        have hlen : f1.length < fuel := by
          simp only [List.length_cons] at hf
          omega
        have := ih fuel (p ++ [c]) cur hlen hq2 hn2 (by simpa [escapeQuotes, hc] using hcr)
        simpa [escapeQuotes, hc] using this

theorem parseQuoted_more (comma : Char) (hc1 : comma ≠ '"') (hc2 : comma ≠ '\n')
    (f t : GoString) (fuel : Nat) (hf : f.length < fuel) (hnl : '\n' ∈ t)
    (hcr : hasCRLF (escapeQuotes f ++ '"' :: comma :: t) = false) :
    parseQuoted comma fuel (firstLine (escapeQuotes f ++ '"' :: comma :: t))
        (afterLine (escapeQuotes f ++ '"' :: comma :: t)) [] =
      some (Quoted.more f (firstLine t) (afterLine t)) := by
  have hbase : ∀ (fuel : Nat) (p cur : GoString), 0 < fuel → '"' ∉ p → '\n' ∉ p →
      parseQuoted comma fuel (firstLine (p ++ '"' :: comma :: t))
          (afterLine (p ++ '"' :: comma :: t)) cur =
        (fun x => some (Quoted.more x (firstLine t) (afterLine t))) (cur ++ p) := by
    intro fuel p cur hfuel hq hn
    obtain ⟨n, rfl⟩ : ∃ n, fuel = n + 1 := ⟨fuel - 1, by omega⟩
    rw [firstLine_append _ _ hn, afterLine_append _ _ hn]
    simp only [firstLine, afterLine, show ('"' : Char) ≠ '\n' by decide, if_false, hc2]
    rw [parseQuoted, span_ne_of_not_mem _ _ _ hq]
    simp [hc1]
  have := parseQuoted_body comma (comma :: t)
    (fun x => some (Quoted.more x (firstLine t) (afterLine t)))
    (List.mem_cons_of_mem _ hnl) hbase f fuel [] []
    hf (by simp) (by simp) (by simpa using hcr)
  simpa using this

theorem parseQuoted_last (comma : Char) (hc2 : comma ≠ '\n')
    (f t : GoString) (fuel : Nat) (hf : f.length < fuel)
    (hcr : hasCRLF (escapeQuotes f ++ '"' :: '\n' :: t) = false) :
    parseQuoted comma fuel (firstLine (escapeQuotes f ++ '"' :: '\n' :: t))
        (afterLine (escapeQuotes f ++ '"' :: '\n' :: t)) [] =
      some (Quoted.last f t) := by
  have hbase : ∀ (fuel : Nat) (p cur : GoString), 0 < fuel → '"' ∉ p → '\n' ∉ p →
      parseQuoted comma fuel (firstLine (p ++ '"' :: '\n' :: t))
          (afterLine (p ++ '"' :: '\n' :: t)) cur =
        (fun x => some (Quoted.last x t)) (cur ++ p) := by
    intro fuel p cur hfuel hq hn
    obtain ⟨n, rfl⟩ : ∃ n, fuel = n + 1 := ⟨fuel - 1, by omega⟩
    rw [firstLine_append _ _ hn, afterLine_append _ _ hn]
    simp only [firstLine, afterLine, show ('"' : Char) ≠ '\n' by decide, if_false, if_true]
    rw [parseQuoted, span_ne_of_not_mem _ _ _ hq]
    have h3 : ¬ ('\n' : Char) = comma := fun h => hc2 h.symm
    simp [h3, lengthNL]
  have := parseQuoted_body comma ('\n' :: t) (fun x => some (Quoted.last x t))
    (List.mem_cons_self _ _) hbase f fuel [] []
    hf (by simp) (by simp) (by simpa using hcr)
  simpa using this

theorem encodeFields_succ (comma : Char) (n : Nat) (fs : List GoString) :
    encodeFields comma (n + 1) fs = encodeFields comma 1 fs := by
  induction fs generalizing n with
  | nil => rfl
  | cons f rest ih =>
    simp only [encodeFields, Nat.zero_lt_succ, if_true, Nat.lt_add_one, gt_iff_lt]
    rw [ih (n + 1), ih 1]

theorem raw_field (comma : Char) (f : GoString) (h : fieldNeedsQuotes comma f = false) :
    comma ∉ f ∧ '"' ∉ f ∧ '\r' ∉ f ∧ '\n' ∉ f := by
  cases f with
  | nil => simp
  | cons r1 rest =>
    unfold fieldNeedsQuotes at h
    simp only at h
    split at h
    · cases h
    · split at h
      · cases h
      · rename_i hany
        simp only [List.any_eq_true, not_exists, not_and, Bool.or_eq_true, beq_iff_eq,
          not_or] at hany
        refine ⟨fun hm => ?_, fun hm => ?_, fun hm => ?_, fun hm => ?_⟩
        · exact (hany _ hm).1.1.1 rfl
        · exact (hany _ hm).1.1.2 rfl
        · exact (hany _ hm).1.2 rfl
        · exact (hany _ hm).2 rfl

theorem escapeQuotes_length (f : GoString) : f.length ≤ (escapeQuotes f).length := by
  induction f with
  | nil => simp [escapeQuotes]
  | cons c rest ih =>
    by_cases h : c = '"' <;> simp [escapeQuotes, h] <;> omega

theorem line_length (t : GoString) : (firstLine t).length + (afterLine t).length = t.length := by
  rw [← List.length_append, firstLine_append_afterLine]

theorem head_ne_quote (f t : GoString) (c : Char) (hq : '"' ∉ f) (hc : c ≠ '"') :
    (f ++ c :: t).head? ≠ some '"' := by
  cases f with
  | nil => simpa using hc
  | cons d rest =>
    have hd : d ≠ '"' := fun h => hq (by simp [h])
    simpa using hd

theorem parseFields_record (comma : Char) (hc1 : comma ≠ '"') (hc2 : comma ≠ '\n')
    (fs : List GoString) : ∀ (f : GoString) (acc : List GoString) (fuel : Nat) (more : GoString),
    fs.length < fuel →
    hasCRLF (encodeField comma f ++ (encodeFields comma 1 fs ++ '\n' :: more)) = false →
    parseFields comma fuel
        (firstLine (encodeField comma f ++ (encodeFields comma 1 fs ++ '\n' :: more)))
        (afterLine (encodeField comma f ++ (encodeFields comma 1 fs ++ '\n' :: more))) acc =
      some (Record.record (acc ++ f :: fs) more) := by
  induction fs with
  | nil =>
    intro f acc fuel more hfuel hcr
    obtain ⟨n, rfl⟩ : ∃ n, fuel = n + 1 := ⟨fuel - 1, by omega⟩
    have henc : encodeFields comma 1 [] ++ '\n' :: more = '\n' :: more := rfl
    rw [henc] at hcr ⊢
    cases hq : fieldNeedsQuotes comma f with
    | false =>
      obtain ⟨r1, r2, _, r4⟩ := raw_field comma f hq
      have hf : encodeField comma f = f := by simp [encodeField, hq]
      rw [hf, firstLine_append _ _ r4, afterLine_append _ _ r4]
      have h1 : firstLine ('\n' :: more) = ['\n'] := by simp [firstLine]
      have h2 : afterLine ('\n' :: more) = more := by simp [afterLine]
      rw [h1, h2]
      have hcm : comma ∉ f ++ ['\n'] := by
        simp only [List.mem_append, List.mem_singleton, not_or]
        exact ⟨r1, hc2⟩
      have hhead := head_ne_quote f [] '\n' r2 (by decide)
      rw [parseFields, if_pos hhead, span_ne_all _ _ hcm]
      simp [lengthNL, r2]
    | true =>
      have hf : encodeField comma f = '"' :: (escapeQuotes f ++ ['"']) := by
        simp [encodeField, hq]
      rw [hf] at hcr ⊢
      simp only [List.cons_append, List.append_assoc, List.nil_append] at hcr ⊢
      have h1 : ∀ x, firstLine ('"' :: x) = '"' :: firstLine x := by
        intro x; simp [firstLine]
      have h2 : ∀ x, afterLine ('"' :: x) = afterLine x := by
        intro x; simp [afterLine]
      rw [h1, h2]
      have hcr1 : hasCRLF (escapeQuotes f ++ '"' :: '\n' :: more) = false :=
        hasCRLF_suffix ['"'] _ hcr
      have hlen := escapeQuotes_length f
      have hl := line_length (escapeQuotes f ++ '"' :: '\n' :: more)
      rw [parseFields, if_neg (by simp)]
      simp only [List.drop_succ_cons, List.drop_zero, List.length_cons]
      rw [parseQuoted_last comma hc2 f more _ (by
        simp only [List.length_append, List.length_cons] at hl
        omega) hcr1]
  | cons g rest ih =>
    intro f acc fuel more hfuel hcr
    obtain ⟨n, rfl⟩ : ∃ n, fuel = n + 1 := ⟨fuel - 1, by omega⟩
    have hn : rest.length < n := by simpa using hfuel
    have henc : encodeFields comma 1 (g :: rest) ++ '\n' :: more =
        comma :: (encodeField comma g ++ (encodeFields comma 1 rest ++ '\n' :: more)) := by
      simp only [encodeFields, Nat.lt_add_one, if_true, gt_iff_lt]
      rw [encodeFields_succ comma 1 rest]
      simp
    rw [henc] at hcr ⊢
    generalize hT : encodeField comma g ++ (encodeFields comma 1 rest ++ '\n' :: more) = T
      at hcr ⊢
    have hnl : '\n' ∈ T := by
      rw [← hT]; simp
    have hgoal := ih g (acc ++ [f]) n more hn
    rw [hT] at hgoal
    have hc : ∀ x, firstLine (comma :: x) = comma :: firstLine x := by
      intro x; simp [firstLine, hc2]
    have hc' : ∀ x, afterLine (comma :: x) = afterLine x := by
      intro x; simp [afterLine, hc2]
    cases hq : fieldNeedsQuotes comma f with
    | false =>
      obtain ⟨r1, r2, _, r4⟩ := raw_field comma f hq
      have hf : encodeField comma f = f := by simp [encodeField, hq]
      rw [hf] at hcr ⊢
      have hcr1 : hasCRLF T = false := hasCRLF_suffix (f ++ [comma]) _ (by simpa using hcr)
      rw [firstLine_append _ _ r4, afterLine_append _ _ r4, hc, hc']
      have hhead := head_ne_quote f (firstLine T) comma r2 hc1
      rw [parseFields, if_pos hhead, span_ne_of_not_mem _ _ _ r1]
      simp only [r2, if_false]
      rw [hgoal hcr1]
      simp
    | true =>
      have hf : encodeField comma f = '"' :: (escapeQuotes f ++ ['"']) := by
        simp [encodeField, hq]
      rw [hf] at hcr ⊢
      simp only [List.cons_append, List.append_assoc, List.nil_append] at hcr ⊢
      have h1 : ∀ x, firstLine ('"' :: x) = '"' :: firstLine x := by
        intro x; simp [firstLine]
      have h2 : ∀ x, afterLine ('"' :: x) = afterLine x := by
        intro x; simp [afterLine]
      rw [h1, h2]
      have hcr1 : hasCRLF (escapeQuotes f ++ '"' :: comma :: T) = false :=
        hasCRLF_suffix ['"'] _ hcr
      have hcr2 : hasCRLF T = false :=
        hasCRLF_suffix (['"'] ++ escapeQuotes f ++ ['"', comma]) _ (by simpa using hcr)
      have hlen := escapeQuotes_length f
      have hl := line_length (escapeQuotes f ++ '"' :: comma :: T)
      rw [parseFields, if_neg (by simp)]
      simp only [List.drop_succ_cons, List.drop_zero, List.length_cons]
      rw [parseQuoted_more comma hc1 hc2 f T _ (by
        simp only [List.length_append, List.length_cons] at hl
        omega) hnl hcr1]
      simp only
      rw [hgoal hcr2]
      simp

theorem encodeFields_length (comma : Char) (fs : List GoString) :
    fs.length ≤ (encodeFields comma 1 fs).length := by
  induction fs with
  | nil => simp [encodeFields]
  | cons f rest ih =>
    simp only [encodeFields, Nat.lt_add_one, if_true, gt_iff_lt, List.length_append,
      List.length_cons, List.length_nil, encodeFields_succ comma 1 rest]
    omega

theorem encodeRecord_cons (comma : Char) (f : GoString) (fs : List GoString) (more : GoString) :
    encodeRecord comma (f :: fs) ++ more =
      encodeField comma f ++ (encodeFields comma 1 fs ++ '\n' :: more) := by
  simp [encodeRecord, encodeFields]

theorem record_starts (comma : Char) (hc2 : comma ≠ '\n') (f : GoString) (fs : List GoString)
    (more : GoString) (h : f :: fs ≠ [[]]) :
    ∃ c t, encodeField comma f ++ (encodeFields comma 1 fs ++ '\n' :: more) = c :: t ∧
      c ≠ '\n' ∧ '\n' ∈ t := by
  cases hq : fieldNeedsQuotes comma f with
  | true =>
    refine ⟨'"', escapeQuotes f ++ ['"'] ++ (encodeFields comma 1 fs ++ '\n' :: more), ?_,
      by decide, by simp⟩
    simp [encodeField, hq]
  | false =>
    obtain ⟨_, _, _, r4⟩ := raw_field comma f hq
    have hf : encodeField comma f = f := by simp [encodeField, hq]
    rw [hf]
    cases f with
    | cons d rest =>
      exact ⟨d, rest ++ (encodeFields comma 1 fs ++ '\n' :: more), rfl,
        fun hd => r4 (by simp [hd]), by simp⟩
    | nil =>
      cases fs with
      | nil => exact absurd rfl h
      | cons g rest =>
        refine ⟨comma, encodeField comma g ++ (encodeFields comma 1 rest ++ '\n' :: more), ?_,
          hc2, by simp⟩
        simp only [encodeFields, Nat.lt_add_one, if_true, gt_iff_lt,
          encodeFields_succ comma 1 rest]
        simp

theorem readRecord_record (comma : Char) (hc1 : comma ≠ '"') (hc2 : comma ≠ '\n')
    (r : List GoString) (more : GoString) (fuel : Nat) (hfuel : 0 < fuel)
    (hr1 : r ≠ []) (hr2 : r ≠ [[]])
    (hcr : hasCRLF (encodeRecord comma r ++ more) = false) :
    readRecord comma fuel (encodeRecord comma r ++ more) = some (Record.record r more) := by
  obtain ⟨n, rfl⟩ : ∃ n, fuel = n + 1 := ⟨fuel - 1, by omega⟩
  cases r with
  | nil => exact absurd rfl hr1
  | cons f fs =>
    rw [encodeRecord_cons] at hcr ⊢
    obtain ⟨c, t, ht, hc, hnl⟩ := record_starts comma hc2 f fs more hr2
    have hmem : '\n' ∈ encodeField comma f ++ (encodeFields comma 1 fs ++ '\n' :: more) := by
      simp
    have hl := line_length (encodeField comma f ++ (encodeFields comma 1 fs ++ '\n' :: more))
    have hlen := encodeFields_length comma fs
    have hline : (firstLine (encodeField comma f ++ (encodeFields comma 1 fs ++ '\n' :: more))).length
        ≠ lengthNL (firstLine (encodeField comma f ++ (encodeFields comma 1 fs ++ '\n' :: more))) := by
      rw [ht]
      obtain ⟨d, t1, rfl⟩ : ∃ d t1, t = d :: t1 := by
        cases t with
        | nil => cases hnl
        | cons d t1 => exact ⟨d, t1, rfl⟩
      have h2 : 2 ≤ (firstLine (c :: d :: t1)).length := by
        simp only [firstLine, hc, if_false]
        by_cases hd : d = '\n' <;> simp [hd]
      have h1 : lengthNL (firstLine (c :: d :: t1)) ≤ 1 := by
        unfold lengthNL
        split <;> omega
      omega
    rw [readRecord, readLine_eq _ hmem hcr]
    simp only [hline, if_false]
    have := parseFields_record comma hc1 hc2 fs f []
      ((firstLine (encodeField comma f ++ (encodeFields comma 1 fs ++ '\n' :: more))).length +
        (afterLine (encodeField comma f ++ (encodeFields comma 1 fs ++ '\n' :: more))).length + 1)
      more (by
        rw [hl]
        simp only [List.length_append, List.length_cons]
        omega) hcr
    simpa using this

theorem readAllLoop_table (comma : Char) (hc1 : comma ≠ '"') (hc2 : comma ≠ '\n') (C : Nat)
    (hC : 0 < C) (table : List (List GoString)) :
    ∀ (fuel fpr : Nat) (acc : List (List GoString)), table.length < fuel →
    (fpr = 0 ∨ fpr = C) → (∀ r ∈ table, r.length = C) → (∀ r ∈ table, r ≠ [[]]) →
    hasCRLF (encodeRecords comma table) = false →
    readAllLoop comma fuel (encodeRecords comma table) fpr acc =
      some (Records.ok (acc ++ table)) := by
  induction table with
  | nil =>
    intro fuel fpr acc hfuel _ _ _ _
    obtain ⟨n, rfl⟩ : ∃ n, fuel = n + 1 := ⟨fuel - 1, by omega⟩
    simp [readAllLoop, encodeRecords, readRecord, readLine]
  | cons r rest ih =>
    intro fuel fpr acc hfuel hfpr hlen hne hcr
    obtain ⟨n, rfl⟩ : ∃ n, fuel = n + 1 := ⟨fuel - 1, by omega⟩
    have hn : rest.length < n := by simpa using hfuel
    have hrl : r.length = C := hlen r (List.mem_cons_self _ _)
    have hr1 : r ≠ [] := by
      intro h
      rw [h] at hrl
      simp at hrl
      omega
    have hr2 : r ≠ [[]] := hne r (List.mem_cons_self _ _)
    have hcr1 : hasCRLF (encodeRecords comma rest) = false := hasCRLF_suffix _ _ hcr
    have hrec := readRecord_record comma hc1 hc2 r (encodeRecords comma rest)
      ((encodeRecord comma r ++ encodeRecords comma rest).length + 1) (by omega) hr1 hr2 hcr
    have hih := fun fpr1 (h : fpr1 = 0 ∨ fpr1 = C) => ih n fpr1 (acc ++ [r]) hn h
      (fun x hx => hlen x (List.mem_cons_of_mem _ hx))
      (fun x hx => hne x (List.mem_cons_of_mem _ hx)) hcr1
    rw [readAllLoop]
    simp only [encodeRecords, hrec]
    rcases hfpr with h | h
    · subst h
      simp only [gt_iff_lt, Nat.lt_irrefl, if_false]
      rw [hih r.length (Or.inr hrl)]
      simp
    · subst h
      simp only [gt_iff_lt, hC, if_true, hrl, ne_eq, not_true_eq_false, if_false]
      rw [hih fpr (Or.inr rfl)]
      simp

theorem hasCRLF_append_of (a b : GoString) (h : CRSafe a) : hasCRLF (a ++ b) = hasCRLF b := by
  induction a with
  | nil => rfl
  | cons c rest ih =>
    obtain ⟨h1, h2⟩ := h
    simp only [hasCRLF, Bool.or_eq_false_iff, Bool.and_eq_false_imp, beq_iff_eq] at h1
    cases rest with
    | nil =>
      have hc : c ≠ '\r' := by simpa using h2
      simp [hasCRLF, hc]
    | cons d rest1 =>
      have h3 : CRSafe (d :: rest1) := ⟨h1.2, by simpa [List.getLast?_cons_cons] using h2⟩
      have h4 := ih h3
      simp only [List.cons_append] at h4 ⊢
      rw [hasCRLF, h4]
      have h5 : (c == '\r' && (d :: (rest1 ++ b)).head? == some '\n') = false := by
        have := h1.1
        simp only [List.head?_cons] at this ⊢
        by_cases hc : c = '\r'
        · simpa [hc] using this hc
        · simp [hc]
      rw [h5]
      rfl

theorem CRSafe_append {a b : GoString} (ha : CRSafe a) (hb : CRSafe b) : CRSafe (a ++ b) := by
  refine ⟨by rw [hasCRLF_append_of a b ha]; exact hb.1, ?_⟩
  cases b with
  | nil => simpa using ha.2
  | cons d rest =>
    rw [List.getLast?_append_of_ne_nil _ (by simp)]
    exact hb.2

theorem CRSafe_nil : CRSafe [] := ⟨rfl, by simp⟩

theorem CRSafe_singleton (c : Char) (h : c ≠ '\r') : CRSafe [c] :=
  ⟨by simp [hasCRLF, h], by simpa using h⟩

theorem hasCRLF_escape (f : GoString) : hasCRLF (escapeQuotes f ++ ['"']) = hasCRLF f := by
  induction f with
  | nil => simp [escapeQuotes, hasCRLF]
  | cons c rest ih =>
    by_cases hc : c = '"'
    · subst hc
      simp only [escapeQuotes, if_true, List.cons_append, List.nil_append, hasCRLF]
      simpa using ih
    · simp only [escapeQuotes, hc, if_false, List.cons_append, List.nil_append, hasCRLF, ih]
      congr 2
      cases rest with
      | nil => simp [escapeQuotes]
      | cons d rest1 =>
        by_cases hd : d = '"'
        · subst hd
          simp [escapeQuotes]
        · simp [escapeQuotes, hd]

theorem CRSafe_encodeField (comma : Char) (f : GoString) (h : hasCRLF f = false) :
    CRSafe (encodeField comma f) := by
  unfold encodeField
  cases hq : fieldNeedsQuotes comma f with
  | false =>
    obtain ⟨_, _, r3, _⟩ := raw_field comma f hq
    refine ⟨by simpa using h, fun hl => ?_⟩
    simp only [Bool.false_eq_true, if_false] at hl
    obtain ⟨ys, hys⟩ := List.getLast?_eq_some_iff.mp hl
    exact r3 (by rw [hys]; simp)
  | true =>
    simp only [if_true, List.append_assoc, List.singleton_append]
    refine ⟨?_, ?_⟩
    · have h1 : hasCRLF ('"' :: (escapeQuotes f ++ ['"'])) =
          hasCRLF (escapeQuotes f ++ ['"']) := by
        simp [hasCRLF]
      rw [List.cons_append, h1, hasCRLF_escape, h]
    · have h2 : ('"' :: (escapeQuotes f ++ ['"'])).getLast? = some '"' := by
        rw [← List.cons_append, List.getLast?_concat]
      rw [List.cons_append, h2]
      decide

theorem CRSafe_encodeFields (comma : Char) (hc3 : comma ≠ '\r') (fs : List GoString) (n : Nat)
    (h : ∀ f ∈ fs, hasCRLF f = false) : CRSafe (encodeFields comma n fs) := by
  induction fs generalizing n with
  | nil => exact CRSafe_nil
  | cons f rest ih =>
    unfold encodeFields
    refine CRSafe_append (CRSafe_append ?_ ?_) ?_
    · split
      · exact CRSafe_singleton comma hc3
      · exact CRSafe_nil
    · exact CRSafe_encodeField comma f (h f (List.mem_cons_self _ _))
    · exact ih (n + 1) fun x hx => h x (List.mem_cons_of_mem _ hx)

theorem CRSafe_encodeRecords (comma : Char) (hc3 : comma ≠ '\r') (table : List (List GoString))
    (h : ∀ r ∈ table, ∀ f ∈ r, hasCRLF f = false) : CRSafe (encodeRecords comma table) := by
  induction table with
  | nil => exact CRSafe_nil
  | cons r rest ih =>
    unfold encodeRecords encodeRecord
    refine CRSafe_append (CRSafe_append ?_ (CRSafe_singleton '\n' (by decide))) ?_
    · exact CRSafe_encodeFields comma hc3 r 0 (h r (List.mem_cons_self _ _))
    · exact ih fun x hx => h x (List.mem_cons_of_mem _ hx)

theorem encodeRecords_length (comma : Char) (table : List (List GoString)) :
    table.length ≤ (encodeRecords comma table).length := by
  induction table with
  | nil => simp [encodeRecords]
  | cons r rest ih =>
    simp only [encodeRecords, encodeRecord, List.length_append, List.length_cons, List.length_nil]
    omega

theorem ReadAll_encodeRecords (comma : Char) (hc1 : comma ≠ '"') (hc2 : comma ≠ '\n')
    (hc3 : comma ≠ '\r') (C : Nat) (hC : 0 < C) (table : List (List GoString))
    (hlen : ∀ r ∈ table, r.length = C) (hne : ∀ r ∈ table, r ≠ [[]])
    (hcr : ∀ r ∈ table, ∀ f ∈ r, hasCRLF f = false) :
    ReadAll comma (encodeRecords comma table) = some (Records.ok table) := by
  have := readAllLoop_table comma hc1 hc2 C hC table
    ((encodeRecords comma table).length + 1) 0 []
    (by have := encodeRecords_length comma table; omega) (Or.inl rfl) hlen hne
    (CRSafe_encodeRecords comma hc3 table hcr).1
  simpa [ReadAll] using this

/-- C4 (counterexample): a table of one row whose only field is empty is
staged as a single newline, which the reader takes for an empty line: it
yields no row. The same holds for a row of no field at all. A field holding
carriage return and newline comes back with the carriage return gone. -/
theorem roundtrip_counterexample :
    stagedBytes [[[]]] = ['\n'] ∧
    ReadAll '\t' (stagedBytes [[[]]]) = some (Records.ok []) ∧
    ReadAll '\t' (stagedBytes [[[]]]) ≠ some (Records.ok [[[]]]) ∧
    ReadAll '\t' (stagedBytes [[]]) = some (Records.ok []) ∧
    ReadAll '\t' (stagedBytes [["a\r\nb".toList]]) = some (Records.ok [["a\nb".toList]]) ∧
    ReadAll '\t' (stagedBytes [["a\r\nb".toList]]) ≠ some (Records.ok [["a\r\nb".toList]]) := by
  refine ⟨by decide, by decide, by decide, by decide, by decide, by decide⟩

/-- C4 (amended): for every table of N ≥ 0 rows with C ≥ 1 fields each, in
which no row is a single empty field and no field holds a carriage return
directly followed by a newline, reading the bytes the serializer goroutine
writes with `csv.Reader` set to the tab delimiter yields exactly the N rows
of C fields, in order and unchanged (fields with a tab, a quote or a newline
and empty fields included). -/
theorem staged_object_roundtrip (C : Nat) (hC : 0 < C) (table : List (List GoString))
    (hlen : ∀ r ∈ table, r.length = C) (hne : ∀ r ∈ table, r ≠ [[]])
    (hcr : ∀ r ∈ table, ∀ f ∈ r, hasCRLF f = false) :
    ReadAll '\t' (stagedBytes table) = some (Records.ok table) := by
  rw [stagedBytes_eq]
  exact ReadAll_encodeRecords '\t' (by decide) (by decide) (by decide) C hC table hlen hne hcr

/-- C4 (witness): two rows of three fields, among them fields with a tab,
with a quote and a newline, with a lone carriage return, empty fields and a
field that is a space. -/
theorem staged_object_roundtrip_witness :
    ReadAll '\t'
        (stagedBytes [["a\tb".toList, [], "x\"y\nz".toList], [[], "c\rd".toList, " ".toList]]) =
      some (Records.ok [["a\tb".toList, [], "x\"y\nz".toList], [[], "c\rd".toList, " ".toList]]) :=
  staged_object_roundtrip 3 (by decide)
    [["a\tb".toList, [], "x\"y\nz".toList], [[], "c\rd".toList, " ".toList]]
    (by decide) (by decide) (by decide)

/-! ### transform -/

theorem step_keeps_blocked (c : Client) (key : GoString) (t : Tid) (s s1 : TransformState)
    (hm : ∃ e, s.main = MainPC.returned e) (hu : s.uploader = UploaderPC.sendNil)
    (h : step c key t s = some s1) :
    (∃ e, s1.main = MainPC.returned e) ∧ s1.uploader = UploaderPC.sendNil := by
  obtain ⟨e, hm⟩ := hm
  unfold step at h
  split at h
  · cases h
  · cases t with
    | main => simp [stepMain, hm] at h
    | serializer =>
      simp only [stepSerializer] at h
      split at h
      · cases h
      · split at h
        · cases h; exact ⟨⟨e, hm⟩, hu⟩
        · simp [hu] at h
      · cases h; exact ⟨⟨e, hm⟩, hu⟩
      · simp only [chanSend, hm] at h
        split at h
        · cases h; exact ⟨⟨e, rfl⟩, hu⟩
        · cases h
      · split at h <;> (cases h; exact ⟨⟨e, hm⟩, hu⟩)
    | uploader =>
      simp only [stepUploader, hu, chanSend, hm] at h
      split at h
      · cases h; exact ⟨⟨e, rfl⟩, rfl⟩
      · cases h

theorem runSchedule_keeps_blocked (c : Client) (key : GoString) (sched : List Tid)
    (s : TransformState) (hm : ∃ e, s.main = MainPC.returned e)
    (hu : s.uploader = UploaderPC.sendNil) :
    (runSchedule c key sched s).uploader = UploaderPC.sendNil := by
  induction sched generalizing s with
  | nil => exact hu
  | cons t ts ih =>
    simp only [runSchedule]
    cases h : step c key t s with
    | none => exact ih s hm hu
    | some s1 =>
      obtain ⟨h1, h2⟩ := step_keeps_blocked c key t s s1 hm hu h
      exact ih s1 h1 h2

theorem runSchedule_append (c : Client) (key : GoString) (a b : List Tid) (s : TransformState) :
    runSchedule c key (a ++ b) s = runSchedule c key b (runSchedule c key a s) := by
  induction a generalizing s with
  | nil => rfl
  | cons t ts ih =>
    simp only [List.cons_append, runSchedule]
    cases step c key t s <;> exact ih _

/-- With the rows of `TestExec` and an upload that succeeds: once the
uploader has started to read and the serializer has made its one write, the
uploader holds the bytes of the staged object; under the fair schedule
`transform` returns nil, the uploader goroutine has ended and the writer end
is closed. -/
theorem transform_test_run :
    (runSchedule (New (testConfig okSession (fun _ => Except.ok testRows) (fun _ => none)))
        "test_prefix/test_key".toList [Tid.uploader, Tid.serializer]
        (transformStart
          [["1".toList, "2".toList, "3".toList], ["4".toList, "5".toList, "6".toList]])).uploader =
      UploaderPC.upload
        (stagedBytes [["1".toList, "2".toList, "3".toList], ["4".toList, "5".toList, "6".toList]]) ∧
    transform fairRuntime.schedule
        (New (testConfig okSession (fun _ => Except.ok testRows) (fun _ => none)))
        [["1".toList, "2".toList, "3".toList], ["4".toList, "5".toList, "6".toList]]
        "test_prefix/test_key".toList = Outcome.ret none ∧
    (runSchedule (New (testConfig okSession (fun _ => Except.ok testRows) (fun _ => none)))
        "test_prefix/test_key".toList fairRuntime.schedule
        (transformStart
          [["1".toList, "2".toList, "3".toList], ["4".toList, "5".toList, "6".toList]])).uploader =
      UploaderPC.exit ∧
    (runSchedule (New (testConfig okSession (fun _ => Except.ok testRows) (fun _ => none)))
        "test_prefix/test_key".toList fairRuntime.schedule
        (transformStart
          [["1".toList, "2".toList, "3".toList], ["4".toList, "5".toList, "6".toList]])).wClosed =
      true := by
  refine ⟨by rfl, by rfl, by rfl, by rfl⟩

theorem quiet_bind {α β : Type} {m : Prog α} (hm : PipeOnly m) (f : α → Prog β) (s : Surround)
    (hs : Accepting s) : (m.bind f).quiet = (f (m.run s).1).quiet := by
  induction hm generalizing s with
  | done a => rfl
  | pipeWrite p k _ ih =>
    simp only [Prog.bind, Prog.quiet, Prog.run, hs s.writes]
    exact ih none _ hs

theorem serializerLoop_quiet (cw : CsvWriter) (records : List (List GoString))
    (h : cw.w.err = none) : (serializerLoop cw records).quiet = true := by
  induction records generalizing cw with
  | nil =>
    simp only [serializerLoop]
    rw [quiet_bind (CsvWriter_Flush_pipeOnly cw) _ (Surround.start fun _ => none) (fun _ => rfl)]
    rfl
  | cons row rest ih =>
    simp only [serializerLoop]
    rw [quiet_bind (CsvWriter_Write_pipeOnly cw row) _ (Surround.start fun _ => none)
      (fun _ => rfl)]
    obtain ⟨h1, _, h3, _, _⟩ :=
      CsvWriter_Write_emits cw row h (Surround.start fun _ => none) (fun _ => rfl)
    simp only [h1]
    exact ih _ h3

theorem step_keeps_sound (c : Client) (key : GoString) (t : Tid) (s s1 : TransformState)
    (hs : SerializerSound s) (h : step c key t s = some s1) : SerializerSound s1 := by
  obtain ⟨hq, hw, hc, hp⟩ := hs
  unfold step at h
  simp only [hp] at h
  cases t with
  | main =>
    simp only [stepMain, hc] at h
    split at h <;> simp at h
  | serializer =>
    simp only [stepSerializer] at h
    split at h
    · cases h
    · rename_i p k hser
      have hwf : s.wClosed = false := by
        cases hwc : s.wClosed with
        | false => rfl
        | true =>
          obtain ⟨a, ha⟩ := hw hwc
          rw [ha] at hser
          cases hser
      simp only [hwf, Bool.false_eq_true, if_false] at h
      split at h
      · cases h
        rw [hser] at hq
        exact ⟨hq, fun hx => by simp [hwf] at hx, hc, hp⟩
      · cases h
    · rename_i k hser
      cases h
      rw [hser] at hq
      cases k with
      | done a => exact ⟨rfl, fun _ => ⟨a, rfl⟩, hc, hp⟩
      | pipeWrite p k1 => simp [Prog.quiet] at hq
      | pipeClose k1 => simp [Prog.quiet] at hq
      | chanSend v k1 => simp [Prog.quiet] at hq
      | chanClose k1 => simp [Prog.quiet] at hq
    · rename_i v k hser
      rw [hser] at hq
      simp [Prog.quiet] at hq
    · rename_i k hser
      rw [hser] at hq
      simp [Prog.quiet] at hq
  | uploader =>
    simp only [stepUploader, chanSend, hc, Bool.false_eq_true, if_false] at h
    split at h
    · split at h <;> (cases h; exact ⟨hq, hw, rfl, hp⟩)
    · split at h
      · split at h <;> (cases h; exact ⟨hq, hw, rfl, hp⟩)
      · cases h
    · split at h
      · cases h; exact ⟨hq, hw, rfl, hp⟩
      · cases h
    · split at h
      · cases h; exact ⟨hq, hw, rfl, hp⟩
      · cases h
    · cases h

theorem runSchedule_keeps_sound (c : Client) (key : GoString) (sched : List Tid)
    (s : TransformState) (hs : SerializerSound s) :
    SerializerSound (runSchedule c key sched s) := by
  induction sched generalizing s with
  | nil => exact hs
  | cons t ts ih =>
    simp only [runSchedule]
    cases h : step c key t s with
    | none => exact ih s hs
    | some s1 => exact ih s1 (step_keeps_sound c key t s s1 hs h)

/-- In every run of `transform`, for every table, client and schedule, the
serializer goroutine meets no write error: whenever it is at a write to the
pipe the writer end is open (the write is handed to the reader or waits), it
never stands at a send on `errc` or at `close(errc)`, `errc` stays open and
nothing panics. -/
theorem transform_serializer_never_fails (c : Client) (key : GoString) (sched : List Tid)
    (records : List (List GoString)) :
    (∀ p k, (runSchedule c key sched (transformStart records)).serializer = Prog.pipeWrite p k →
      (runSchedule c key sched (transformStart records)).wClosed = false) ∧
    (∀ v k, (runSchedule c key sched (transformStart records)).serializer ≠ Prog.chanSend v k) ∧
    (∀ k, (runSchedule c key sched (transformStart records)).serializer ≠ Prog.chanClose k) ∧
    (runSchedule c key sched (transformStart records)).errcClosed = false ∧
    (runSchedule c key sched (transformStart records)).panicked = none := by
  have hstart : SerializerSound (transformStart records) :=
    ⟨serializerLoop_quiet _ records rfl, fun h => Bool.noConfusion h, rfl, rfl⟩
  obtain ⟨hq, hw, hc, hp⟩ := runSchedule_keeps_sound c key sched _ hstart
  refine ⟨?_, ?_, ?_, hc, hp⟩
  · intro p k hser
    cases hwc : (runSchedule c key sched (transformStart records)).wClosed with
    | false => rfl
    | true =>
      obtain ⟨a, ha⟩ := hw hwc
      rw [ha] at hser
      cases hser
  · intro v k hser
    rw [hser] at hq
    simp [Prog.quiet] at hq
  · intro k hser
    rw [hser] at hq
    simp [Prog.quiet] at hq

/-- C10: evaluation at the failing inputs. With the rows of `TestExec` and a
session whose upload reads the whole body and is then rejected with `upload
failed`: the uploader reads the staged object, the serializer closes the
writer end, and when the two goroutines have had four turns each `transform`
has returned that error to its caller while the uploader goroutine stands at
`errc <- nil`; whatever the goroutines do afterwards, it stays there and
never ends. The same holds, for every table, with a session whose upload
fails before it reads, once the uploader goroutine has run two steps. -/
theorem transform_returns_before_uploader_ends (records : List (List GoString))
    (more : List Tid) :
    transform [Tid.uploader, Tid.uploader]
        (New (testConfig (failingSession ⟨"upload failed"⟩) (fun _ => Except.ok testRows)
          (fun _ => none)))
        records "test_prefix/test_key".toList = Outcome.ret (some ⟨"upload failed"⟩) ∧
    (runSchedule
        (New (testConfig (failingSession ⟨"upload failed"⟩) (fun _ => Except.ok testRows)
          (fun _ => none)))
        "test_prefix/test_key".toList ([Tid.uploader, Tid.uploader] ++ more)
        (transformStart records)).uploader = UploaderPC.sendNil ∧
    (runSchedule
        (New (testConfig (rejectingSession ⟨"upload failed"⟩) (fun _ => Except.ok testRows)
          (fun _ => none)))
        "test_prefix/test_key".toList (alternate 2)
        (transformStart
          [["1".toList, "2".toList, "3".toList], ["4".toList, "5".toList, "6".toList]])).uploader =
      UploaderPC.reading
        (stagedBytes [["1".toList, "2".toList, "3".toList], ["4".toList, "5".toList, "6".toList]]) ∧
    (runSchedule
        (New (testConfig (rejectingSession ⟨"upload failed"⟩) (fun _ => Except.ok testRows)
          (fun _ => none)))
        "test_prefix/test_key".toList (alternate 3)
        (transformStart
          [["1".toList, "2".toList, "3".toList], ["4".toList, "5".toList, "6".toList]])).wClosed =
      true ∧
    transform (alternate 4)
        (New (testConfig (rejectingSession ⟨"upload failed"⟩) (fun _ => Except.ok testRows)
          (fun _ => none)))
        [["1".toList, "2".toList, "3".toList], ["4".toList, "5".toList, "6".toList]]
        "test_prefix/test_key".toList = Outcome.ret (some ⟨"upload failed"⟩) ∧
    (runSchedule
        (New (testConfig (rejectingSession ⟨"upload failed"⟩) (fun _ => Except.ok testRows)
          (fun _ => none)))
        "test_prefix/test_key".toList (alternate 4 ++ more)
        (transformStart
          [["1".toList, "2".toList, "3".toList], ["4".toList, "5".toList, "6".toList]])).uploader =
      UploaderPC.sendNil := by
  refine ⟨rfl, ?_, rfl, rfl, rfl, ?_⟩
  · rw [runSchedule_append]
    exact runSchedule_keeps_blocked _ _ more _ ⟨_, rfl⟩ rfl
  · rw [runSchedule_append]
    exact runSchedule_keeps_blocked _ _ more _ ⟨_, rfl⟩ rfl

/-- C2 (counterexample): with no delimiter configured, `New` sets the
delimiter to a comma and not to a tab, `load` names the comma, and the staged
object of the rows 1 2 3 and 4 5 6 has its fields separated by tabs, not by
the configured delimiter. -/
theorem delimiter_counterexample :
    (New (testConfig okSession (fun _ => Except.ok testRows) (fun _ => none))).cfg.CSVDelimiter
      = 44 ∧
    (New (testConfig okSession (fun _ => Except.ok testRows) (fun _ => none))).cfg.CSVDelimiter
      ≠ 9 ∧
    QuoteRune (fun _ => false)
      (New (testConfig okSession (fun _ => Except.ok testRows) (fun _ => none))).cfg.CSVDelimiter
      = "','".toList ∧
    stagedBytes [["1".toList, "2".toList, "3".toList], ["4".toList, "5".toList, "6".toList]]
      = "1\t2\t3\n4\t5\t6\n".toList ∧
    stagedBytes [["1".toList, "2".toList, "3".toList], ["4".toList, "5".toList, "6".toList]]
      ≠ stagedBytesWith ','
          [["1".toList, "2".toList, "3".toList], ["4".toList, "5".toList, "6".toList]] := by
  refine ⟨rfl, by decide, by decide, by decide, by decide⟩

/-- C2 (amended): for every configuration, the delimiter of the client is the
configured one, or a comma when none is configured (zero rune), and the COPY
statement of `load` names it, as a Go character literal, in its
`CSV DELIMITER` clause. -/
theorem load_names_delimiter (wide : Int → Bool) (cfg : Config) (key : GoString) :
    (New cfg).cfg.CSVDelimiter = (if cfg.CSVDelimiter = 0 then 44 else cfg.CSVDelimiter) ∧
    loadStatement wide (New cfg) key =
      "\n\t\tCOPY ".toList ++ cfg.Redshift.Schema ++ ".".toList ++ cfg.Redshift.Table ++
      "\n\t\tFROM 's3://".toList ++ cfg.S3.Bucket ++ "/".toList ++ key ++
      "' CREDENTIALS '".toList ++ cfg.Redshift.CredentialsParam ++ "'\n\t\t".toList ++
      ("CSV DELIMITER ".toList ++ QuoteRune wide (New cfg).cfg.CSVDelimiter) ++
      " ".toList ++ cfg.Redshift.CopyParams ++
      "\n\t\tREGION '".toList ++ cfg.S3.Region ++ "'\n\t\t".toList ∧
    (cfg.CSVDelimiter = 0 → QuoteRune wide (New cfg).cfg.CSVDelimiter = "','".toList) := by
  refine ⟨?_, ?_, ?_⟩
  · unfold New
    split <;> simp_all
  · unfold loadStatement New
    split <;> simp
  · intro h
    have h1 : (New cfg).cfg.CSVDelimiter = 44 := by simp [New, h]
    rw [h1]
    exact QuoteRune_printable wide 44 (by decide) (by decide) (by decide) (by decide)

/-- C2 (witness): the configuration of `TestExec`, which sets no delimiter. -/
theorem load_names_delimiter_witness :
    QuoteRune (fun _ => false)
        (New (testConfig okSession (fun _ => Except.ok testRows) (fun _ => none))).cfg.CSVDelimiter =
      "','".toList :=
  (load_names_delimiter (fun _ => false)
    (testConfig okSession (fun _ => Except.ok testRows) (fun _ => none)) []).2.2 rfl

end DbToRedshift
